import Mathlib

/-!
Verification of the dungeon-crawler core logic (`src/logic.cpp`).

The C++ code represents the dungeon as a `char **` 2D array together with
`int maxRow`, `int maxCol` dimensions, and a `Player` struct carrying
`row`, `col`, `treasure`.  We embed the grid as `List (List Char)` and the
`int` values as `Int` (C++ `int` arithmetic agrees with `Int` wherever the
program's arithmetic is defined, i.e. does not overflow; the overflow
guards themselves are computed in `double` in the source and are embedded
exactly, see `loadLevelOverflowGuard` below).

Out-of-range reads of the 2D array (undefined behaviour in C++) are
modelled as yielding the distinguished character `CELL_UNSET`, and
out-of-range writes as no-ops; all theorems that depend on cell writes
carry in-bounds and well-formedness hypotheses under which the embedding
performs exactly the writes the C++ code performs.
-/

/-- Modelled from the spec: the tile constants live in `logic.h`, which is
not part of the sources; the spec's data model (§3) fixes the eight tile
variants Open, Pillar, Player, Monster, Treasure, Door, Exit, Amulet as
distinct single-character tokens.  The concrete character codes are chosen
arbitrarily; only their distinctness matters to the logic. -/
def TILE_OPEN : Char := '-'

/-- Modelled from the spec: see `TILE_OPEN`. -/
def TILE_PLAYER : Char := 'o'

/-- Modelled from the spec: see `TILE_OPEN`. -/
def TILE_TREASURE : Char := '$'

/-- Modelled from the spec: see `TILE_OPEN`. -/
def TILE_AMULET : Char := '@'

/-- Modelled from the spec: see `TILE_OPEN`. -/
def TILE_MONSTER : Char := 'M'

/-- Modelled from the spec: see `TILE_OPEN`. -/
def TILE_PILLAR : Char := '+'

/-- Modelled from the spec: see `TILE_OPEN`. -/
def TILE_DOOR : Char := '?'

/-- Modelled from the spec: see `TILE_OPEN`. -/
def TILE_EXIT : Char := '!'

/-- Marker for a cell whose value the C++ program never defined (an
out-of-range read, or a grid cell filled from a too-short token stream).
Distinct from all eight tile constants. -/
def CELL_UNSET : Char := Char.ofNat 0

/-- Modelled from the spec: the `STATUS_*` move-outcome constants live in
`logic.h`; the spec (§3, MoveOutcome) fixes six distinct outcomes.  The
concrete integer values are chosen arbitrarily; only distinctness matters. -/
def STATUS_STAY : Int := 1

/-- Modelled from the spec: see `STATUS_STAY`. -/
def STATUS_MOVE : Int := 2

/-- Modelled from the spec: see `STATUS_STAY`. -/
def STATUS_TREASURE : Int := 3

/-- Modelled from the spec: see `STATUS_STAY`. -/
def STATUS_AMULET : Int := 4

/-- Modelled from the spec: see `STATUS_STAY`. -/
def STATUS_LEAVE : Int := 5

/-- Modelled from the spec: see `STATUS_STAY`. -/
def STATUS_ESCAPE : Int := 6

/-- Modelled from the spec: the `MOVE_*` input characters live in
`logic.h`; the spec (§4.3) fixes four directions Up, Down, Left, Right. -/
def MOVE_UP : Char := 'w'

/-- Modelled from the spec: see `MOVE_UP`. -/
def MOVE_DOWN : Char := 's'

/-- Modelled from the spec: see `MOVE_UP`. -/
def MOVE_LEFT : Char := 'a'

/-- Modelled from the spec: see `MOVE_UP`. -/
def MOVE_RIGHT : Char := 'd'

/-- `INT32_MAX`, used by the overflow guards in `loadLevel` and
`resizeMap`. -/
def INT32_MAX : Int := 2147483647

/-- Modelled from the spec: the `Player` struct is declared in `logic.h`;
the spec (§3) gives it a row, a column and a treasure count.  The C++
fields are `int`, embedded as `Int`. -/
structure Player where
  row : Int
  col : Int
  treasure : Int
deriving Repr, DecidableEq

/-- The dungeon map: the `char **` 2D array of `logic.cpp`, row-major. -/
abbrev Grid := List (List Char)

/-- Read entry `i` of a list, yielding `d` out of range (the embedding of
an indexed read). -/
def idxD {α : Type} (d : α) : List α → Nat → α
  | [], _ => d
  | x :: _, 0 => x
  | _ :: xs, n + 1 => idxD d xs n

/-- Row `r` of a grid (`map[r]`); the empty row when out of range. -/
def rowIdx (m : Grid) (r : Nat) : List Char := idxD [] m r

/-- Read `map[r][c]`.  Out-of-range reads (undefined behaviour in C++)
yield `CELL_UNSET`. -/
def getCell (m : Grid) (r c : Int) : Char :=
  if 0 ≤ r ∧ 0 ≤ c then idxD CELL_UNSET (rowIdx m r.toNat) c.toNat else CELL_UNSET

/-- Write `map[r][c] = v`.  Out-of-range writes (undefined behaviour in
C++) are modelled as no-ops; every theorem that relies on a write carries
hypotheses putting the write in range. -/
def setCell (m : Grid) (r c : Int) (v : Char) : Grid :=
  if 0 ≤ r ∧ 0 ≤ c then m.set r.toNat ((rowIdx m r.toNat).set c.toNat v) else m

/-- Build an `n × k` grid whose cell `(r, c)` holds `f r c`: the embedding
of the C++ allocation loops that write every cell of a fresh array exactly
once. -/
def buildGrid (n k : Int) (f : Int → Int → Char) : Grid :=
  (List.range n.toNat).map fun r : Nat =>
    (List.range k.toNat).map fun c : Nat => f (Int.ofNat r) (Int.ofNat c)

/-- The Map invariant of the spec (§3): the grid has exactly `R` rows and
every row has exactly `C` cells. -/
def wellFormed (m : Grid) (R C : Int) : Prop :=
  m.length = R.toNat ∧ ∀ row ∈ m, row.length = C.toNat

instance (m : Grid) (R C : Int) : Decidable (wellFormed m R C) := by
  unfold wellFormed
  infer_instance

theorem idxD_eq_get? {α : Type} (d : α) (l : List α) (i : Nat) :
    idxD d l i = (l.get? i).getD d := by
  induction l generalizing i with
  | nil => cases i <;> rfl
  | cons x xs ih => cases i with
    | zero => rfl
    | succ n => simpa [idxD] using ih n

theorem idxD_set_self {α : Type} (d : α) (l : List α) (i : Nat) (v : α)
    (h : i < l.length) : idxD d (l.set i v) i = v := by
  induction l generalizing i with
  | nil => simp at h
  | cons x xs ih =>
    cases i with
    | zero => rfl
    | succ n => simpa [idxD, List.set] using ih n (by simpa using h)

theorem idxD_set_ne {α : Type} (d : α) (l : List α) (i j : Nat) (v : α)
    (h : i ≠ j) : idxD d (l.set i v) j = idxD d l j := by
  induction l generalizing i j with
  | nil => rfl
  | cons x xs ih =>
    cases i with
    | zero => cases j with
      | zero => exact absurd rfl h
      | succ n => rfl
    | succ n => cases j with
      | zero => rfl
      | succ k => simpa [idxD, List.set] using ih n k (by omega)

theorem idxD_of_length_le {α : Type} (d : α) (l : List α) (i : Nat)
    (h : l.length ≤ i) : idxD d l i = d := by
  induction l generalizing i with
  | nil => cases i <;> rfl
  | cons x xs ih =>
    cases i with
    | zero => simp at h
    | succ n => simpa [idxD] using ih n (by simpa using h)

theorem rowIdx_set (m : Grid) (i : Nat) (row : List Char) (j : Nat) :
    rowIdx (m.set i row) j = if i = j ∧ i < m.length then row else rowIdx m j := by
  by_cases hij : i = j
  · subst hij
    by_cases hlen : i < m.length
    · simp [rowIdx, hlen, idxD_set_self]
    · simp only [hlen, and_false, if_false]
      rw [List.set_eq_of_length_le (by omega)]
  · simp [hij, rowIdx, idxD_set_ne _ _ _ _ _ hij]

theorem rowIdx_of_length_le (m : Grid) (i : Nat) (h : m.length ≤ i) :
    rowIdx m i = [] := idxD_of_length_le _ _ _ h

/-- Reading where the value is not `CELL_UNSET` means the read was in the
structural range of the grid. -/
theorem inRange_of_getCell_ne_unset {m : Grid} {r c : Int}
    (h : getCell m r c ≠ CELL_UNSET) :
    0 ≤ r ∧ 0 ≤ c ∧ r.toNat < m.length ∧ c.toNat < (rowIdx m r.toNat).length := by
  by_cases hrc : 0 ≤ r ∧ 0 ≤ c
  · refine ⟨hrc.1, hrc.2, ?_, ?_⟩
    · by_contra hr
      have : rowIdx m r.toNat = [] := rowIdx_of_length_le _ _ (by omega)
      simp [getCell, hrc, this, idxD] at h
    · by_contra hc
      have : idxD CELL_UNSET (rowIdx m r.toNat) c.toNat = CELL_UNSET :=
        idxD_of_length_le _ _ _ (by omega)
      simp [getCell, hrc, this] at h
  · simp [getCell, hrc] at h

theorem getCell_setCell_self {m : Grid} {r c : Int} (v : Char)
    (hr : 0 ≤ r) (hc : 0 ≤ c) (hrl : r.toNat < m.length)
    (hcl : c.toNat < (rowIdx m r.toNat).length) :
    getCell (setCell m r c v) r c = v := by
  simp only [getCell, setCell, hr, hc, and_self, if_true]
  rw [show rowIdx (m.set r.toNat ((rowIdx m r.toNat).set c.toNat v)) r.toNat =
      (rowIdx m r.toNat).set c.toNat v by
    rw [rowIdx_set]; simp [hrl]]
  exact idxD_set_self _ _ _ _ (by simpa using hcl)

theorem getCell_setCell_ne {m : Grid} {r c r' c' : Int} (v : Char)
    (h : ¬(r = r' ∧ c = c')) :
    getCell (setCell m r c v) r' c' = getCell m r' c' := by
  by_cases hrc : 0 ≤ r ∧ 0 ≤ c
  · by_cases hrc' : 0 ≤ r' ∧ 0 ≤ c'
    · unfold getCell setCell
      rw [if_pos hrc, if_pos hrc', if_pos hrc']
      by_cases hrr : r = r'
      · subst hrr
        have hcc : c.toNat ≠ c'.toNat := by omega
        rw [rowIdx_set]
        by_cases hlen : r.toNat < m.length
        · simp only [hlen, and_true, if_pos rfl]
          exact idxD_set_ne _ _ _ _ _ hcc
        · simp [hlen]
      · have : r.toNat ≠ r'.toNat := by omega
        rw [rowIdx_set]
        simp [this]
    · unfold getCell setCell
      rw [if_pos hrc, if_neg hrc', if_neg hrc']
  · simp [setCell, hrc]

theorem length_setCell (m : Grid) (r c : Int) (v : Char) :
    (setCell m r c v).length = m.length := by
  unfold setCell
  split <;> simp

theorem rowIdx_length_setCell (m : Grid) (r c : Int) (v : Char) (i : Nat) :
    (rowIdx (setCell m r c v) i).length = (rowIdx m i).length := by
  unfold setCell
  split
  · rw [rowIdx_set]
    split
    · next h => simp [h.1]
    · rfl
  · rfl

/-- `createMap` (`logic.cpp:86`): fails (returns `nullptr`, i.e. `none`)
exactly when `maxRow < 0 || maxCol < 0`; otherwise allocates a
`maxRow × maxCol` grid and sets every cell to `TILE_OPEN`.  Note the
source contains no overflow guard: any non-negative dimensions are
accepted. -/
def createMap (maxRow maxCol : Int) : Option Grid :=
  if maxRow < 0 ∨ maxCol < 0 then none
  else some (buildGrid maxRow maxCol fun _ _ => TILE_OPEN)

/-- The overflow guard of `loadLevel` (`logic.cpp:31`):
`maxRow != 0 && (INT32_MAX / (maxRow * 1.0)) < maxCol`.  The source
computes the quotient in `double`; for `int32` operands the `double`
comparison decides exactly the same relation as the exact rational
comparison (the rounding error of the quotient, at most `2^31 · 2^-53`
relative, is smaller than the least possible nonzero gap `1/|maxRow|`
between the exact quotient and the integer `maxCol`), so the guard is
embedded with exact rational arithmetic. -/
def loadLevelOverflowGuard (maxRow maxCol : Int) : Prop :=
  maxRow ≠ 0 ∧ (INT32_MAX : ℚ) / (maxRow : ℚ) < (maxCol : ℚ)

instance (maxRow maxCol : Int) : Decidable (loadLevelOverflowGuard maxRow maxCol) := by
  unfold loadLevelOverflowGuard
  infer_instance

/-- The input source of `loadLevel`: the leading four integer tokens
(`rows cols playerRow playerCol`) followed by the single-character tile
tokens, in order.  A file that cannot be opened is `none` at the call
site (see `loadLevel`). -/
structure LevelData where
  rows : Int
  cols : Int
  prow : Int
  pcol : Int
  tiles : List Char
deriving Repr

/-- `loadLevel` (`logic.cpp:19`).  The `ifstream` is embedded as
`Option LevelData`: `none` when the file cannot be opened (the source
returns `nullptr` before touching any output), `some` otherwise.  The
source then reads `maxRow`, `maxCol`, `player.row`, `player.col` through
its reference parameters BEFORE the overflow guard, so on guard failure
those outputs keep the values just read.  The grid is filled row-major
from the token stream (`CELL_UNSET` standing for a cell left
indeterminate by a too-short stream), and the player tile is stamped at
the declared player coordinates.  Returns
`(map-or-nullptr, maxRow, maxCol, player)` — the returned pointer plus
the three reference parameters the C++ function updates. -/
def loadLevel (file : Option LevelData) (maxRow maxCol : Int) (player : Player) :
    Option Grid × Int × Int × Player :=
  match file with
  | none => (none, maxRow, maxCol, player)
  | some d =>
    let maxRow := d.rows
    let maxCol := d.cols
    let player : Player := { player with row := d.prow, col := d.pcol }
    if loadLevelOverflowGuard maxRow maxCol then
      (none, maxRow, maxCol, player)
    else
      let mat := buildGrid maxRow maxCol fun r c =>
        idxD CELL_UNSET d.tiles (r.toNat * maxCol.toNat + c.toNat)
      let mat := setCell mat player.row player.col TILE_PLAYER
      (some mat, maxRow, maxCol, player)

/-- `getDirection` (`logic.cpp:59`): translate the input character into
the updated `(nextRow, nextCol)` pair; unrecognized characters leave the
pair unchanged. -/
def getDirection (input : Char) (nextRow nextCol : Int) : Int × Int :=
  if input = MOVE_UP then (nextRow - 1, nextCol)
  else if input = MOVE_DOWN then (nextRow + 1, nextCol)
  else if input = MOVE_LEFT then (nextRow, nextCol - 1)
  else if input = MOVE_RIGHT then (nextRow, nextCol + 1)
  else (nextRow, nextCol)

/-- The condition computed by `resizeMap`'s guard (`logic.cpp:141`):
`map == nullptr || (INT32_MAX / 2.0) < maxRow || (INT32_MAX / 2.0) < maxCol`
(the `double` arithmetic is exact here).  The body of this `if` in the
source is EMPTY: the condition is computed and then ignored, and
`resizeMap` proceeds unconditionally, so this definition is not used by
`resizeMap` below. -/
def resizeMapGuard (isNull : Bool) (maxRow maxCol : Int) : Prop :=
  isNull = true ∨ (INT32_MAX : ℚ) / 2 < (maxRow : ℚ) ∨ (INT32_MAX : ℚ) / 2 < (maxCol : ℚ)

instance (isNull : Bool) (maxRow maxCol : Int) : Decidable (resizeMapGuard isNull maxRow maxCol) := by
  unfold resizeMapGuard
  infer_instance

/-- Helper for the three replicated quadrants of `resizeMap`: the source
cell unless it holds the player tile, in which case `TILE_OPEN`
(`logic.cpp:166` and the analogous branches of sections C and D). -/
def noPlayerCell (t : Char) : Char :=
  if t ≠ TILE_PLAYER then t else TILE_OPEN

/-- `resizeMap` (`logic.cpp:138`): doubles both dimensions, copying the
original grid into the top-left quadrant (section A) and the
player-erased grid into the other three quadrants (sections B, C, D).
The four section loops of the source write every cell of the fresh
`nrl × ncl` array exactly once, partitioned by `r < maxRow` / `c < maxCol`,
which is embedded as `buildGrid` over the same per-cell formula.  The
source's overflow/null guard has an empty body (see `resizeMapGuard`) so
the function proceeds unconditionally; the old map is freed
(`deleteMap`) and `maxRow`/`maxCol` are updated to the doubled values,
returned here alongside the new grid. -/
def resizeMap (map : Grid) (maxRow maxCol : Int) : Grid × Int × Int :=
  let nrl := maxRow * 2
  let ncl := maxCol * 2
  let mat := buildGrid nrl ncl fun r c =>
    if r < maxRow then
      if c < maxCol then getCell map r c
      else noPlayerCell (getCell map r (c - maxCol))
    else
      if c < maxCol then noPlayerCell (getCell map (r - maxRow) c)
      else noPlayerCell (getCell map (r - maxRow) (c - maxCol))
  (mat, nrl, ncl)

/-- `doPlayerMove` (`logic.cpp:219`): validates the target cell and
either stays (out of bounds, pillar/monster, or exit without treasure)
or performs the move, computing the outcome by the source's chain of
tile tests and mutating the two affected cells.  Returns
`(status, map, player)` — the return value plus the two mutable
parameters. -/
def doPlayerMove (map : Grid) (maxRow maxCol : Int) (player : Player)
    (nextRow nextCol : Int) : Int × Grid × Player :=
  if nextRow ≥ maxRow ∨ nextRow < 0 ∨ nextCol ≥ maxCol ∨ nextCol < 0 then
    (STATUS_STAY, map, player)
  else
    let nextTile := getCell map nextRow nextCol
    if nextTile = TILE_PILLAR ∨ nextTile = TILE_MONSTER then
      (STATUS_STAY, map, player)
    else if nextTile = TILE_EXIT ∧ player.treasure = 0 then
      (STATUS_STAY, map, player)
    else
      let tempStatus := STATUS_MOVE
      let tempStatus := if nextTile = TILE_DOOR then STATUS_LEAVE else tempStatus
      let tempStatus := if nextTile = TILE_EXIT ∧ player.treasure > 0 then STATUS_ESCAPE else tempStatus
      let tempStatus := if nextTile = TILE_AMULET then STATUS_AMULET else tempStatus
      let tempStatus := if nextTile = TILE_TREASURE then STATUS_TREASURE else tempStatus
      let treasure1 := if nextTile = TILE_TREASURE then player.treasure + 1 else player.treasure
      let map1 := setCell map player.row player.col TILE_OPEN
      let player1 : Player := { row := nextRow, col := nextCol, treasure := treasure1 }
      let map2 := setCell map1 player1.row player1.col TILE_PLAYER
      (tempStatus, map2, player1)

/-- One ray scan of `doMonsterAttack` (`logic.cpp:283`, the `while`
loop): starting at `(r, c)` and stepping by `(dr, dc)`, stop at the map
boundary or at a pillar; on a monster, write `TILE_MONSTER` one step
toward the player and `TILE_OPEN` at the monster's cell, then continue.
The loop is embedded with explicit fuel; each iteration moves one cell
outward inside the bounds `[0, maxRow) × [0, maxCol)`, so any fuel of at
least `maxRow.toNat + maxCol.toNat + 1` (see `attackFuel`) exceeds the
number of iterations the C++ loop can perform. -/
def scanRay (dr dc maxRow maxCol : Int) : Nat → Int → Int → Grid → Grid
  | 0, _, _, m => m
  | fuel + 1, r, c, m =>
    if r < maxRow ∧ 0 ≤ r ∧ c < maxCol ∧ 0 ≤ c then
      if getCell m r c = TILE_PILLAR then m
      else if getCell m r c = TILE_MONSTER then
        scanRay dr dc maxRow maxCol fuel (r + dr) (c + dc)
          (setCell (setCell m (r - dr) (c - dc) TILE_MONSTER) r c TILE_OPEN)
      else scanRay dr dc maxRow maxCol fuel (r + dr) (c + dc) m
    else m

/-- Fuel bound for `scanRay`; strictly larger than the iteration count of
any of the four ray scans. -/
def attackFuel (maxRow maxCol : Int) : Nat := maxRow.toNat + maxCol.toNat + 1

/-- The direction table `dir[4][2] = {{1,0},{-1,0},{0,1},{0,-1}}` of
`doMonsterAttack` (`logic.cpp:278`), in source order: down, up, right,
left. -/
def dirs : List (Int × Int) := [(1, 0), (-1, 0), (0, 1), (0, -1)]

/-- `doMonsterAttack` (`logic.cpp:275`): scan the four cardinal rays from
the player in source order, then check the player's own cell once and
report capture.  The `Player` parameter is `const` in the source and is
not among the outputs.  Returns `(map, captured)`. -/
def doMonsterAttack (map : Grid) (maxRow maxCol : Int) (player : Player) :
    Grid × Bool :=
  let m4 := dirs.foldl
    (fun acc d =>
      scanRay d.1 d.2 maxRow maxCol (attackFuel maxRow maxCol)
        (player.row + d.1) (player.col + d.2) acc)
    map
  (m4, getCell m4 player.row player.col == TILE_MONSTER)

/-- Instrumented variant of `scanRay` for auditing the cells that
monster advances overwrite: alongside the map it threads a flag that
stays `true` as long as every cell written with `TILE_MONSTER` satisfied
the predicate `P` at the moment it was overwritten.  The map component
coincides with `scanRay` (see `scanRayCk_fst`). -/
def scanRayCk (P : Char → Bool) (dr dc maxRow maxCol : Int) :
    Nat → Int → Int → Grid → Bool → Grid × Bool
  | 0, _, _, m, ok => (m, ok)
  | fuel + 1, r, c, m, ok =>
    if r < maxRow ∧ 0 ≤ r ∧ c < maxCol ∧ 0 ≤ c then
      if getCell m r c = TILE_PILLAR then (m, ok)
      else if getCell m r c = TILE_MONSTER then
        scanRayCk P dr dc maxRow maxCol fuel (r + dr) (c + dc)
          (setCell (setCell m (r - dr) (c - dc) TILE_MONSTER) r c TILE_OPEN)
          (ok && P (getCell m (r - dr) (c - dc)))
      else scanRayCk P dr dc maxRow maxCol fuel (r + dr) (c + dc) m ok
    else (m, ok)

/-- Instrumented variant of `doMonsterAttack` threading the audit flag of
`scanRayCk` through the four ray scans. -/
def doMonsterAttackCk (P : Char → Bool) (map : Grid) (maxRow maxCol : Int)
    (player : Player) : Grid × Bool :=
  dirs.foldl
    (fun acc d =>
      scanRayCk P d.1 d.2 maxRow maxCol (attackFuel maxRow maxCol)
        (player.row + d.1) (player.col + d.2) acc.1 acc.2)
    (map, true)

/-- The whole mutable state a turn operates on: the map with its
dimensions, and the player. -/
structure GameState where
  map : Grid
  maxRow : Int
  maxCol : Int
  player : Player

/-- `doMonsterAttack` as a transformer of the full game state: the map is
replaced by the scanned map; the player is passed by `const` reference in
the source (`logic.cpp:275`) and cannot be written through. -/
def advanceMonsters (s : GameState) : GameState × Bool :=
  let out := doMonsterAttack s.map s.maxRow s.maxCol s.player
  ({ s with map := out.1 }, out.2)

theorem dir_cases {dr dc : Int} (hdir : (dr, dc) ∈ dirs) :
    (dr = 1 ∧ dc = 0) ∨ (dr = -1 ∧ dc = 0) ∨ (dr = 0 ∧ dc = 1) ∨ (dr = 0 ∧ dc = -1) := by
  simpa [dirs, Prod.ext_iff] using hdir

/-- Along a unit-direction ray, the cell one step behind the start is hit
by no forward offset `a ≥ 0`. -/
theorem ray_ne_back {dr dc : Int} (hdir : (dr, dc) ∈ dirs) (r c : Int) {a : Int}
    (ha : 0 ≤ a) : ¬(r + a * dr = r - dr ∧ c + a * dc = c - dc) := by
  rcases dir_cases hdir with ⟨rfl, rfl⟩ | ⟨rfl, rfl⟩ | ⟨rfl, rfl⟩ | ⟨rfl, rfl⟩ <;>
    · intro h
      simp only [mul_one, mul_zero, mul_neg] at h
      omega

/-- Along a unit-direction ray, a strictly positive offset never lands
back on the start. -/
theorem ray_ne_start {dr dc : Int} (hdir : (dr, dc) ∈ dirs) (r c : Int) {a : Int}
    (ha : 1 ≤ a) : ¬(r + a * dr = r ∧ c + a * dc = c) := by
  rcases dir_cases hdir with ⟨rfl, rfl⟩ | ⟨rfl, rfl⟩ | ⟨rfl, rfl⟩ | ⟨rfl, rfl⟩ <;>
    · intro h
      simp only [mul_one, mul_zero, mul_neg] at h
      omega

theorem wf_rowIdx_length {m : Grid} {R C : Int} (hwf : wellFormed m R C) {i : Nat}
    (h : i < m.length) : (rowIdx m i).length = C.toNat := by
  have hget : m.get? i = some (m.get ⟨i, h⟩) := List.get?_eq_get h
  have hmem : m.get ⟨i, h⟩ ∈ m := List.get_mem m i h
  rw [rowIdx, idxD_eq_get?, hget]
  exact hwf.2 _ hmem

theorem wellFormed_iff (m : Grid) (R C : Int) :
    wellFormed m R C ↔ m.length = R.toNat ∧ ∀ i < m.length, (rowIdx m i).length = C.toNat := by
  constructor
  · intro hwf
    exact ⟨hwf.1, fun i hi => wf_rowIdx_length hwf hi⟩
  · rintro ⟨hlen, hrows⟩
    refine ⟨hlen, fun row hrow => ?_⟩
    obtain ⟨i, hi, rfl⟩ := List.mem_iff_get.mp hrow
    have : rowIdx m i = m.get i := by
      rw [rowIdx, idxD_eq_get?, List.get?_eq_get i.isLt]
      rfl
    rw [← this]
    exact hrows i i.isLt

theorem wellFormed_setCell {m : Grid} {R C : Int} (hwf : wellFormed m R C)
    (r c : Int) (v : Char) : wellFormed (setCell m r c v) R C := by
  rw [wellFormed_iff] at hwf ⊢
  refine ⟨by rw [length_setCell]; exact hwf.1, fun i hi => ?_⟩
  rw [rowIdx_length_setCell]
  exact hwf.2 i (by rwa [length_setCell] at hi)

/-- A cell write either lands (the cell now holds the new value) or the
write was structurally out of range and the grid is untouched at that
position. -/
theorem getCell_setCell_or (m : Grid) (r c : Int) (v : Char) :
    getCell (setCell m r c v) r c = v ∨ getCell (setCell m r c v) r c = getCell m r c := by
  by_cases h0 : 0 ≤ r ∧ 0 ≤ c
  · by_cases hr : r.toNat < m.length
    · by_cases hc : c.toNat < (rowIdx m r.toNat).length
      · exact Or.inl (getCell_setCell_self v h0.1 h0.2 hr hc)
      · right
        unfold setCell getCell
        rw [if_pos h0, if_pos h0, if_pos h0]
        rw [rowIdx_set]
        simp only [hr, and_true, if_pos rfl]
        rw [List.set_eq_of_length_le (by omega)]
        simp
    · right
      unfold setCell
      rw [if_pos h0, List.set_eq_of_length_le (by omega)]
  · right
    unfold setCell
    rw [if_neg h0]

theorem scanRay_length (dr dc R C : Int) :
    ∀ (fuel : Nat) (r c : Int) (m : Grid),
      (scanRay dr dc R C fuel r c m).length = m.length := by
  intro fuel
  induction fuel with
  | zero => intro r c m; rfl
  | succ fuel ih =>
    intro r c m
    rw [scanRay]
    split
    · split
      · rfl
      · split
        · rw [ih]
          simp [length_setCell]
        · rw [ih]
    · rfl

theorem scanRay_rowIdx_length (dr dc R C : Int) :
    ∀ (fuel : Nat) (r c : Int) (m : Grid) (i : Nat),
      (rowIdx (scanRay dr dc R C fuel r c m) i).length = (rowIdx m i).length := by
  intro fuel
  induction fuel with
  | zero => intro r c m i; rfl
  | succ fuel ih =>
    intro r c m i
    rw [scanRay]
    split
    · split
      · rfl
      · split
        · rw [ih]
          simp [rowIdx_length_setCell]
        · rw [ih]
    · rfl

theorem scanRay_wellFormed {R C : Int} (dr dc : Int) (fuel : Nat) (r c : Int)
    {m : Grid} (hwf : wellFormed m R C) :
    wellFormed (scanRay dr dc R C fuel r c m) R C := by
  rw [wellFormed_iff] at hwf ⊢
  constructor
  · rw [scanRay_length]; exact hwf.1
  · intro i hi
    rw [scanRay_rowIdx_length]
    exact hwf.2 i (by rwa [scanRay_length] at hi)

theorem getCell_setCell_cases (m : Grid) (r c : Int) (v : Char) (q1 q2 : Int) :
    getCell (setCell m r c v) q1 q2 = v ∨
    getCell (setCell m r c v) q1 q2 = getCell m q1 q2 := by
  by_cases h : r = q1 ∧ c = q2
  · obtain ⟨rfl, rfl⟩ := h
    exact getCell_setCell_or m r c v
  · exact Or.inr (getCell_setCell_ne v h)

/-- Frame property of one ray scan: a cell lying on none of the positions
`(r - dr + k·dr, c - dc + k·dc)` (the scanned cells and their immediate
predecessors, the only cells the loop ever writes) is untouched. -/
theorem scanRay_frame (dr dc R C : Int) :
    ∀ (fuel : Nat) (r c : Int) (m : Grid) (q1 q2 : Int),
      (∀ k : Nat, ¬(q1 = r - dr + k * dr ∧ q2 = c - dc + k * dc)) →
      getCell (scanRay dr dc R C fuel r c m) q1 q2 = getCell m q1 q2 := by
  intro fuel
  induction fuel with
  | zero => intro r c m q1 q2 _; rfl
  | succ fuel ih =>
    intro r c m q1 q2 h
    have hrec : ∀ k : Nat, ¬(q1 = (r + dr) - dr + k * dr ∧ q2 = (c + dc) - dc + k * dc) := by
      intro k hk
      apply h (k + 1)
      have e1 : r - dr + ((k + 1 : Nat) : Int) * dr = (r + dr) - dr + (k : Int) * dr := by
        push_cast; ring
      have e2 : c - dc + ((k + 1 : Nat) : Int) * dc = (c + dc) - dc + (k : Int) * dc := by
        push_cast; ring
      rw [e1, e2]
      exact hk
    have h1 : ¬(r = q1 ∧ c = q2) := by
      intro hk
      apply h 1
      constructor
      · rw [← hk.1]; push_cast; ring
      · rw [← hk.2]; push_cast; ring
    have h0 : ¬(r - dr = q1 ∧ c - dc = q2) := by
      intro hk
      apply h 0
      constructor
      · rw [← hk.1]; push_cast; ring
      · rw [← hk.2]; push_cast; ring
    rw [scanRay]
    split
    · split
      · rfl
      · split
        · rw [ih _ _ _ _ _ hrec, getCell_setCell_ne _ h1, getCell_setCell_ne _ h0]
        · rw [ih _ _ _ _ _ hrec]
    · rfl

/-- A ray scan writes only `TILE_MONSTER` and `TILE_OPEN`: every cell of
the result either kept its value or holds one of those two tiles. -/
theorem scanRay_values (dr dc R C : Int) :
    ∀ (fuel : Nat) (r c : Int) (m : Grid) (q1 q2 : Int),
      getCell (scanRay dr dc R C fuel r c m) q1 q2 = getCell m q1 q2 ∨
      getCell (scanRay dr dc R C fuel r c m) q1 q2 = TILE_MONSTER ∨
      getCell (scanRay dr dc R C fuel r c m) q1 q2 = TILE_OPEN := by
  intro fuel
  induction fuel with
  | zero => intro r c m q1 q2; left; rfl
  | succ fuel ih =>
    intro r c m q1 q2
    rw [scanRay]
    split
    · split
      · left; rfl
      · split
        · rcases ih (r + dr) (c + dc)
            (setCell (setCell m (r - dr) (c - dc) TILE_MONSTER) r c TILE_OPEN) q1 q2 with
            h | h | h
          · rw [h]
            rcases getCell_setCell_cases (setCell m (r - dr) (c - dc) TILE_MONSTER)
              r c TILE_OPEN q1 q2 with h' | h'
            · right; right; exact h'
            · rw [h']
              rcases getCell_setCell_cases m (r - dr) (c - dc) TILE_MONSTER q1 q2 with
                h'' | h''
              · right; left; exact h''
              · left; exact h''
          · right; left; exact h
          · right; right; exact h
        · exact ih (r + dr) (c + dc) m q1 q2
    · left; rfl

theorem scanRay_ne_pillar (dr dc R C : Int) (fuel : Nat) (r c : Int) (m : Grid)
    (q1 q2 : Int) (h : getCell m q1 q2 ≠ TILE_PILLAR) :
    getCell (scanRay dr dc R C fuel r c m) q1 q2 ≠ TILE_PILLAR := by
  rcases scanRay_values dr dc R C fuel r c m q1 q2 with h' | h' | h' <;> rw [h']
  · exact h
  · decide
  · decide

/-- The value of the cell one step behind the scan's start (in
`doMonsterAttack`, the player's cell): either untouched, or overwritten
with `TILE_MONSTER` by an advance of a monster sitting on the start
cell. -/
theorem scanRay_behind {dr dc : Int} (hdir : (dr, dc) ∈ dirs) (R C : Int)
    (fuel : Nat) (r c : Int) (m : Grid) :
    getCell (scanRay dr dc R C fuel r c m) (r - dr) (c - dc) =
      getCell m (r - dr) (c - dc) ∨
    getCell (scanRay dr dc R C fuel r c m) (r - dr) (c - dc) = TILE_MONSTER := by
  cases fuel with
  | zero => left; rfl
  | succ fuel =>
    have hframe : ∀ k : Nat,
        ¬(r - dr = (r + dr) - dr + k * dr ∧ c - dc = (c + dc) - dc + k * dc) := by
      intro k hk
      have e1 : (r + dr) - dr + (k : Int) * dr = r + (k : Int) * dr := by ring
      have e2 : (c + dc) - dc + (k : Int) * dc = c + (k : Int) * dc := by ring
      rw [e1] at hk
      rw [e2] at hk
      exact ray_ne_back hdir r c (by positivity) ⟨hk.1.symm, hk.2.symm⟩
    have houter : ¬(r = r - dr ∧ c = c - dc) := by
      rcases dir_cases hdir with ⟨rfl, rfl⟩ | ⟨rfl, rfl⟩ | ⟨rfl, rfl⟩ | ⟨rfl, rfl⟩ <;>
        · intro hk; omega
    rw [scanRay]
    split
    · split
      · left; rfl
      · split
        · rw [scanRay_frame dr dc R C fuel (r + dr) (c + dc) _ _ _ hframe,
            getCell_setCell_ne _ houter]
          rcases getCell_setCell_or m (r - dr) (c - dc) TILE_MONSTER with h | h
          · right; exact h
          · left; exact h
        · rw [scanRay_frame dr dc R C fuel (r + dr) (c + dc) _ _ _ hframe]
          left; rfl
    · left; rfl

/-- Specialization of the frame property to the rays of
`doMonsterAttack`, which start one step from the player: a cell on none
of the positions `(pr + k·dr', pc + k·dc')`, `k ≥ 0`, is untouched by
that ray. -/
theorem scanRay_attack_frame {dr' dc' : Int} (R C : Int) (fuel : Nat)
    (pr pc : Int) (m : Grid) (q1 q2 : Int)
    (hq : ∀ k : Nat, ¬(q1 = pr + k * dr' ∧ q2 = pc + k * dc')) :
    getCell (scanRay dr' dc' R C fuel (pr + dr') (pc + dc') m) q1 q2 =
      getCell m q1 q2 := by
  apply scanRay_frame
  intro k
  have e1 : (pr + dr') - dr' + (k : Int) * dr' = pr + (k : Int) * dr' := by ring
  have e2 : (pc + dc') - dc' + (k : Int) * dc' = pc + (k : Int) * dc' := by ring
  rw [e1, e2]
  exact hq k

/-- A cell already holding `TILE_MONSTER` that no strictly positive
offset of an attack ray reaches still holds `TILE_MONSTER` after that ray
(the player's cell itself can be written, but only ever with
`TILE_MONSTER`). -/
theorem scanRay_attack_keepM {dr' dc' : Int} (hdir' : (dr', dc') ∈ dirs)
    (R C : Int) (fuel : Nat) (pr pc : Int) (m : Grid) (q1 q2 : Int)
    (hM : getCell m q1 q2 = TILE_MONSTER)
    (hq : ∀ k : Nat, 1 ≤ k → ¬(q1 = pr + k * dr' ∧ q2 = pc + k * dc')) :
    getCell (scanRay dr' dc' R C fuel (pr + dr') (pc + dc') m) q1 q2 =
      TILE_MONSTER := by
  by_cases hp : q1 = pr ∧ q2 = pc
  · have hb := scanRay_behind hdir' R C fuel (pr + dr') (pc + dc') m
    simp only [add_sub_cancel_right] at hb
    rw [hp.1, hp.2] at hM ⊢
    rcases hb with h | h
    · rw [h]; exact hM
    · exact h
  · rw [scanRay_attack_frame R C fuel pr pc m q1 q2 ?_]
    · exact hM
    · intro k
      cases k with
      | zero => simpa using hp
      | succ k => exact hq (k + 1) (by omega)

/-- Core correctness of one ray scan: if the cells at offsets `0..t` from
the scan's start are in bounds, none of those before offset `t` holds a
pillar, and offset `t` holds a monster, then after the scan the cell one
step nearer the player than offset `t` holds that monster.  (Offsets
`0..t` may contain further monsters nearer the player: they advance too
and do not block the scan.) -/
theorem scan_advance {dr dc R C : Int} (hdir : (dr, dc) ∈ dirs) :
    ∀ (t fuel : Nat) (r c : Int) (m : Grid),
      wellFormed m R C →
      t + 1 ≤ fuel →
      (∀ j : Nat, j ≤ t →
        0 ≤ r + j * dr ∧ r + j * dr < R ∧ 0 ≤ c + j * dc ∧ c + j * dc < C) →
      (0 ≤ r + t * dr - dr ∧ r + t * dr - dr < R ∧
        0 ≤ c + t * dc - dc ∧ c + t * dc - dc < C) →
      (∀ j : Nat, j < t → getCell m (r + j * dr) (c + j * dc) ≠ TILE_PILLAR) →
      getCell m (r + t * dr) (c + t * dc) = TILE_MONSTER →
      getCell (scanRay dr dc R C fuel r c m) (r + t * dr - dr) (c + t * dc - dc) =
        TILE_MONSTER := by
  have houter : ∀ r c : Int, ¬(r = r - dr ∧ c = c - dc) := by
    rcases dir_cases hdir with ⟨rfl, rfl⟩ | ⟨rfl, rfl⟩ | ⟨rfl, rfl⟩ | ⟨rfl, rfl⟩ <;>
      · intro r c hk; omega
  intro t
  induction t with
  | zero =>
    intro fuel r c m hwf hfuel hin htgt hnp hM
    simp only [Nat.cast_zero, zero_mul, add_zero] at htgt hM ⊢
    obtain ⟨f, rfl⟩ : ∃ f, fuel = f + 1 := ⟨fuel - 1, by omega⟩
    have hb0 := hin 0 (le_refl 0)
    simp only [Nat.cast_zero, zero_mul, add_zero] at hb0
    rw [scanRay, if_pos ⟨hb0.2.1, hb0.1, hb0.2.2.2, hb0.2.2.1⟩,
      if_neg (by rw [hM]; decide), if_pos hM]
    rw [scanRay_attack_frame R C f r c _ (r - dr) (c - dc) ?_]
    · rw [getCell_setCell_ne _ (houter r c)]
      have hrl : (r - dr).toNat < m.length := by
        rw [hwf.1]; omega
      have hcl : (c - dc).toNat < (rowIdx m (r - dr).toNat).length := by
        rw [wf_rowIdx_length hwf hrl]; omega
      exact getCell_setCell_self TILE_MONSTER htgt.1 htgt.2.2.1 hrl hcl
    · intro k hk
      exact ray_ne_back hdir r c (Int.natCast_nonneg k) ⟨hk.1.symm, hk.2.symm⟩
  | succ t ih =>
    intro fuel r c m hwf hfuel hin htgt hnp hM
    obtain ⟨f, rfl⟩ : ∃ f, fuel = f + 1 := ⟨fuel - 1, by omega⟩
    have hb0 := hin 0 (by omega)
    simp only [Nat.cast_zero, zero_mul, add_zero] at hb0
    have hp0 : getCell m r c ≠ TILE_PILLAR := by
      have h := hnp 0 (by omega)
      simpa using h
    have er : ∀ (j : Nat) (x : Int),
        x + ((j + 1 : Nat) : Int) * dr = (x + dr) + (j : Int) * dr := by
      intro j x; push_cast; ring
    have ec : ∀ (j : Nat) (x : Int),
        x + ((j + 1 : Nat) : Int) * dc = (x + dc) + (j : Int) * dc := by
      intro j x; push_cast; ring
    have hin' : ∀ j : Nat, j ≤ t →
        0 ≤ (r + dr) + j * dr ∧ (r + dr) + j * dr < R ∧
        0 ≤ (c + dc) + j * dc ∧ (c + dc) + j * dc < C := by
      intro j hj
      have h := hin (j + 1) (by omega)
      rwa [er j r, ec j c] at h
    have htgt' : 0 ≤ (r + dr) + t * dr - dr ∧ (r + dr) + t * dr - dr < R ∧
        0 ≤ (c + dc) + t * dc - dc ∧ (c + dc) + t * dc - dc < C := by
      rw [← er t r, ← ec t c]
      exact htgt
    have hgoal : ∀ mm : Grid,
        getCell (scanRay dr dc R C f (r + dr) (c + dc) mm)
          ((r + dr) + t * dr - dr) ((c + dc) + t * dc - dc) = TILE_MONSTER →
        getCell (scanRay dr dc R C f (r + dr) (c + dc) mm)
          (r + (t + 1 : Nat) * dr - dr) (c + (t + 1 : Nat) * dc - dc) = TILE_MONSTER := by
      intro mm h
      rwa [er t r, ec t c]
    rw [scanRay, if_pos ⟨hb0.2.1, hb0.1, hb0.2.2.2, hb0.2.2.1⟩, if_neg hp0]
    by_cases hMc : getCell m r c = TILE_MONSTER
    · rw [if_pos hMc]
      apply hgoal
      apply ih f (r + dr) (c + dc) _ (wellFormed_setCell (wellFormed_setCell hwf _ _ _) _ _ _)
        (by omega) hin' htgt'
      · intro j hj
        rw [getCell_setCell_ne _ ?_, getCell_setCell_ne _ ?_]
        · have h := hnp (j + 1) (by omega)
          rwa [er j r, ec j c] at h
        · intro hk
          exact ray_ne_back hdir r c (a := ((j : Int) + 1)) (by omega)
            (by rw [← er j r, ← ec j c] at hk; push_cast at hk ⊢; omega)
        · intro hk
          exact ray_ne_start hdir r c (a := ((j : Int) + 1)) (by omega)
            (by rw [← er j r, ← ec j c] at hk; push_cast at hk ⊢; omega)
      · rw [getCell_setCell_ne _ ?_, getCell_setCell_ne _ ?_]
        · rwa [er t r, ec t c] at hM
        · intro hk
          exact ray_ne_back hdir r c (a := ((t : Int) + 1)) (by omega)
            (by rw [← er t r, ← ec t c] at hk; push_cast at hk ⊢; omega)
        · intro hk
          exact ray_ne_start hdir r c (a := ((t : Int) + 1)) (by omega)
            (by rw [← er t r, ← ec t c] at hk; push_cast at hk ⊢; omega)
    · rw [if_neg hMc]
      apply hgoal
      apply ih f (r + dr) (c + dc) m hwf (by omega) hin' htgt'
      · intro j hj
        have h := hnp (j + 1) (by omega)
        rwa [er j r, ec j c] at h
      · rwa [er t r, ec t c] at hM

/-- The map produced by `doMonsterAttack` is the composition of the four
ray scans in source order: down, up, right, left. -/
theorem doMonsterAttack_fst (m : Grid) (R C : Int) (p : Player) :
    (doMonsterAttack m R C p).1 =
      scanRay 0 (-1) R C (attackFuel R C) (p.row + 0) (p.col + (-1))
        (scanRay 0 1 R C (attackFuel R C) (p.row + 0) (p.col + 1)
          (scanRay (-1) 0 R C (attackFuel R C) (p.row + (-1)) (p.col + 0)
            (scanRay 1 0 R C (attackFuel R C) (p.row + 1) (p.col + 0) m))) := rfl

/-- `scan_advance` specialized to a ray of `doMonsterAttack`, with the
monster at offset `t + 1` from the player and the fuel bound discharged
from the in-bounds hypotheses. -/
theorem attack_scan_advance {dr dc R C : Int} (hdir : (dr, dc) ∈ dirs) (t : Nat)
    (pr pc : Int) (m : Grid) (hwf : wellFormed m R C)
    (hpb : 0 ≤ pr ∧ pr < R ∧ 0 ≤ pc ∧ pc < C)
    (hin : ∀ i : Nat, 1 ≤ i → i ≤ t + 1 →
      0 ≤ pr + i * dr ∧ pr + i * dr < R ∧ 0 ≤ pc + i * dc ∧ pc + i * dc < C)
    (hnp : ∀ i : Nat, 1 ≤ i → i < t + 1 →
      getCell m (pr + i * dr) (pc + i * dc) ≠ TILE_PILLAR)
    (hM : getCell m (pr + ((t + 1 : Nat) : Int) * dr) (pc + ((t + 1 : Nat) : Int) * dc) =
      TILE_MONSTER) :
    getCell (scanRay dr dc R C (attackFuel R C) (pr + dr) (pc + dc) m)
      (pr + ((t + 1 : Nat) : Int) * dr - dr) (pc + ((t + 1 : Nat) : Int) * dc - dc) =
      TILE_MONSTER := by
  have er : ∀ (j : Nat) (x y : Int),
      x + ((j + 1 : Nat) : Int) * y = (x + y) + (j : Int) * y := by
    intro j x y; push_cast; ring
  have hfuel : t + 1 + 1 ≤ attackFuel R C := by
    have h := hin (t + 1) (by omega) (le_refl _)
    unfold attackFuel
    rcases dir_cases hdir with ⟨rfl, rfl⟩ | ⟨rfl, rfl⟩ | ⟨rfl, rfl⟩ | ⟨rfl, rfl⟩ <;>
      · push_cast at h
        omega
  have htgt : 0 ≤ pr + (t : Int) * dr ∧ pr + (t : Int) * dr < R ∧
      0 ≤ pc + (t : Int) * dc ∧ pc + (t : Int) * dc < C := by
    rcases Nat.eq_zero_or_pos t with rfl | ht
    · simpa using hpb
    · have h := hin t (by omega) (by omega)
      exact h
  have h := scan_advance hdir t (attackFuel R C) (pr + dr) (pc + dc) m hwf
    (by omega) ?_ ?_ ?_ ?_
  · rwa [er t pr dr, er t pc dc]
  · intro j hj
    have h := hin (j + 1) (by omega) (by omega)
    rwa [er j pr dr, er j pc dc] at h
  · have e1 : (pr + dr) + (t : Int) * dr - dr = pr + (t : Int) * dr := by ring
    have e2 : (pc + dc) + (t : Int) * dc - dc = pc + (t : Int) * dc := by ring
    rw [e1, e2]
    exact htgt
  · intro j hj
    have h := hnp (j + 1) (by omega) (by omega)
    rwa [er j pr dr, er j pc dc] at h
  · rwa [er t pr dr, er t pc dc] at hM

/-- Membership facts for the four scan directions. -/
theorem dir_down_mem : ((1 : Int), (0 : Int)) ∈ dirs := by simp [dirs]

theorem dir_up_mem : ((-1 : Int), (0 : Int)) ∈ dirs := by simp [dirs]

theorem dir_right_mem : ((0 : Int), (1 : Int)) ∈ dirs := by simp [dirs]

theorem dir_left_mem : ((0 : Int), (-1 : Int)) ∈ dirs := by simp [dirs]

/-- Any monster with pillar-free line of sight to the player — at any
distance `t + 1` along one of the four rays, even with further monsters
nearer the player on the same ray — sits one cell nearer the player
after `doMonsterAttack`. -/
theorem doMonsterAttack_monster_advances (m : Grid) (R C : Int) (p : Player)
    {dr dc : Int} (hdir : (dr, dc) ∈ dirs) (t : Nat)
    (hwf : wellFormed m R C)
    (hpb : 0 ≤ p.row ∧ p.row < R ∧ 0 ≤ p.col ∧ p.col < C)
    (hin : ∀ i : Nat, 1 ≤ i → i ≤ t + 1 →
      0 ≤ p.row + i * dr ∧ p.row + i * dr < R ∧
      0 ≤ p.col + i * dc ∧ p.col + i * dc < C)
    (hnp : ∀ i : Nat, 1 ≤ i → i < t + 1 →
      getCell m (p.row + i * dr) (p.col + i * dc) ≠ TILE_PILLAR)
    (hM : getCell m (p.row + ((t + 1 : Nat) : Int) * dr)
      (p.col + ((t + 1 : Nat) : Int) * dc) = TILE_MONSTER) :
    getCell (doMonsterAttack m R C p).1
      (p.row + ((t + 1 : Nat) : Int) * dr - dr)
      (p.col + ((t + 1 : Nat) : Int) * dc - dc) = TILE_MONSTER := by
  rw [doMonsterAttack_fst]
  rcases dir_cases hdir with ⟨rfl, rfl⟩ | ⟨rfl, rfl⟩ | ⟨rfl, rfl⟩ | ⟨rfl, rfl⟩
  · have h1 := attack_scan_advance dir_down_mem t p.row p.col m hwf hpb hin hnp hM
    have h2 := scanRay_attack_keepM dir_up_mem R C (attackFuel R C) p.row p.col
      _ _ _ h1 (by intro k hk h; omega)
    have h3 := scanRay_attack_keepM dir_right_mem R C (attackFuel R C) p.row p.col
      _ _ _ h2 (by intro k hk h; omega)
    exact scanRay_attack_keepM dir_left_mem R C (attackFuel R C) p.row p.col
      _ _ _ h3 (by intro k hk h; omega)
  · have hfr1 : ∀ i : Nat, 1 ≤ i →
        getCell (scanRay 1 0 R C (attackFuel R C) (p.row + 1) (p.col + 0) m)
          (p.row + (i : Int) * (-1)) (p.col + (i : Int) * 0) =
        getCell m (p.row + (i : Int) * (-1)) (p.col + (i : Int) * 0) := by
      intro i hi
      apply scanRay_attack_frame
      intro k h
      omega
    have hwf1 : wellFormed (scanRay 1 0 R C (attackFuel R C) (p.row + 1) (p.col + 0) m)
        R C := scanRay_wellFormed _ _ _ _ _ hwf
    have h2 := attack_scan_advance dir_up_mem t p.row p.col _ hwf1 hpb hin
      (fun i hi hit => by rw [hfr1 i hi]; exact hnp i hi hit)
      (by rw [hfr1 (t + 1) (by omega)]; exact hM)
    have h3 := scanRay_attack_keepM dir_right_mem R C (attackFuel R C) p.row p.col
      _ _ _ h2 (by intro k hk h; omega)
    exact scanRay_attack_keepM dir_left_mem R C (attackFuel R C) p.row p.col
      _ _ _ h3 (by intro k hk h; omega)
  · have hfr1 : ∀ i : Nat, 1 ≤ i →
        getCell (scanRay 1 0 R C (attackFuel R C) (p.row + 1) (p.col + 0) m)
          (p.row + (i : Int) * 0) (p.col + (i : Int) * 1) =
        getCell m (p.row + (i : Int) * 0) (p.col + (i : Int) * 1) := by
      intro i hi
      apply scanRay_attack_frame
      intro k h
      omega
    have hfr2 : ∀ i : Nat, 1 ≤ i →
        getCell (scanRay (-1) 0 R C (attackFuel R C) (p.row + (-1)) (p.col + 0)
            (scanRay 1 0 R C (attackFuel R C) (p.row + 1) (p.col + 0) m))
          (p.row + (i : Int) * 0) (p.col + (i : Int) * 1) =
        getCell (scanRay 1 0 R C (attackFuel R C) (p.row + 1) (p.col + 0) m)
          (p.row + (i : Int) * 0) (p.col + (i : Int) * 1) := by
      intro i hi
      apply scanRay_attack_frame
      intro k h
      omega
    have hpres : ∀ i : Nat, 1 ≤ i →
        getCell (scanRay (-1) 0 R C (attackFuel R C) (p.row + (-1)) (p.col + 0)
            (scanRay 1 0 R C (attackFuel R C) (p.row + 1) (p.col + 0) m))
          (p.row + (i : Int) * 0) (p.col + (i : Int) * 1) =
        getCell m (p.row + (i : Int) * 0) (p.col + (i : Int) * 1) := by
      intro i hi
      rw [hfr2 i hi, hfr1 i hi]
    have hwf2 : wellFormed (scanRay (-1) 0 R C (attackFuel R C) (p.row + (-1)) (p.col + 0)
        (scanRay 1 0 R C (attackFuel R C) (p.row + 1) (p.col + 0) m)) R C :=
      scanRay_wellFormed _ _ _ _ _ (scanRay_wellFormed _ _ _ _ _ hwf)
    have h3 := attack_scan_advance dir_right_mem t p.row p.col _ hwf2 hpb hin
      (fun i hi hit => by rw [hpres i hi]; exact hnp i hi hit)
      (by rw [hpres (t + 1) (by omega)]; exact hM)
    exact scanRay_attack_keepM dir_left_mem R C (attackFuel R C) p.row p.col
      _ _ _ h3 (by intro k hk h; omega)
  · have hfr1 : ∀ i : Nat, 1 ≤ i →
        getCell (scanRay 1 0 R C (attackFuel R C) (p.row + 1) (p.col + 0) m)
          (p.row + (i : Int) * 0) (p.col + (i : Int) * (-1)) =
        getCell m (p.row + (i : Int) * 0) (p.col + (i : Int) * (-1)) := by
      intro i hi
      apply scanRay_attack_frame
      intro k h
      omega
    have hfr2 : ∀ i : Nat, 1 ≤ i →
        getCell (scanRay (-1) 0 R C (attackFuel R C) (p.row + (-1)) (p.col + 0)
            (scanRay 1 0 R C (attackFuel R C) (p.row + 1) (p.col + 0) m))
          (p.row + (i : Int) * 0) (p.col + (i : Int) * (-1)) =
        getCell (scanRay 1 0 R C (attackFuel R C) (p.row + 1) (p.col + 0) m)
          (p.row + (i : Int) * 0) (p.col + (i : Int) * (-1)) := by
      intro i hi
      apply scanRay_attack_frame
      intro k h
      omega
    have hfr3 : ∀ i : Nat, 1 ≤ i →
        getCell (scanRay 0 1 R C (attackFuel R C) (p.row + 0) (p.col + 1)
            (scanRay (-1) 0 R C (attackFuel R C) (p.row + (-1)) (p.col + 0)
              (scanRay 1 0 R C (attackFuel R C) (p.row + 1) (p.col + 0) m)))
          (p.row + (i : Int) * 0) (p.col + (i : Int) * (-1)) =
        getCell (scanRay (-1) 0 R C (attackFuel R C) (p.row + (-1)) (p.col + 0)
            (scanRay 1 0 R C (attackFuel R C) (p.row + 1) (p.col + 0) m))
          (p.row + (i : Int) * 0) (p.col + (i : Int) * (-1)) := by
      intro i hi
      apply scanRay_attack_frame
      intro k h
      omega
    have hpres : ∀ i : Nat, 1 ≤ i →
        getCell (scanRay 0 1 R C (attackFuel R C) (p.row + 0) (p.col + 1)
            (scanRay (-1) 0 R C (attackFuel R C) (p.row + (-1)) (p.col + 0)
              (scanRay 1 0 R C (attackFuel R C) (p.row + 1) (p.col + 0) m)))
          (p.row + (i : Int) * 0) (p.col + (i : Int) * (-1)) =
        getCell m (p.row + (i : Int) * 0) (p.col + (i : Int) * (-1)) := by
      intro i hi
      rw [hfr3 i hi, hfr2 i hi, hfr1 i hi]
    have hwf3 : wellFormed (scanRay 0 1 R C (attackFuel R C) (p.row + 0) (p.col + 1)
        (scanRay (-1) 0 R C (attackFuel R C) (p.row + (-1)) (p.col + 0)
          (scanRay 1 0 R C (attackFuel R C) (p.row + 1) (p.col + 0) m))) R C :=
      scanRay_wellFormed _ _ _ _ _
        (scanRay_wellFormed _ _ _ _ _ (scanRay_wellFormed _ _ _ _ _ hwf))
    exact attack_scan_advance dir_left_mem t p.row p.col _ hwf3 hpb hin
      (fun i hi hit => by rw [hpres i hi]; exact hnp i hi hit)
      (by rw [hpres (t + 1) (by omega)]; exact hM)

theorem scanRayCk_fst (P : Char → Bool) (dr dc R C : Int) :
    ∀ (fuel : Nat) (r c : Int) (m : Grid) (ok : Bool),
      (scanRayCk P dr dc R C fuel r c m ok).1 = scanRay dr dc R C fuel r c m := by
  intro fuel
  induction fuel with
  | zero => intro r c m ok; rfl
  | succ fuel ih =>
    intro r c m ok
    rw [scanRayCk, scanRay]
    split
    · split
      · rfl
      · split
        · exact ih _ _ _ _
        · exact ih _ _ _ _
    · rfl

/-- The audit predicate for the amended overwrite invariant: the cell a
monster advances into is never a pillar. -/
def nonPillarCk : Char → Bool := fun t => !(t == TILE_PILLAR)

theorem scanRayCk_nonPillar (dr dc R C : Int) :
    ∀ (fuel : Nat) (r c : Int) (m : Grid) (ok : Bool),
      ok = true →
      getCell m (r - dr) (c - dc) ≠ TILE_PILLAR →
      (scanRayCk nonPillarCk dr dc R C fuel r c m ok).2 = true := by
  intro fuel
  induction fuel with
  | zero => intro r c m ok hok h; exact hok
  | succ fuel ih =>
    intro r c m ok hok h
    subst hok
    rw [scanRayCk]
    by_cases hb : r < R ∧ 0 ≤ r ∧ c < C ∧ 0 ≤ c
    · rw [if_pos hb]
      by_cases hp : getCell m r c = TILE_PILLAR
      · rw [if_pos hp]
      · rw [if_neg hp]
        by_cases hm : getCell m r c = TILE_MONSTER
        · rw [if_pos hm]
          apply ih
          · simp [nonPillarCk, h]
          · simp only [add_sub_cancel_right]
            rcases getCell_setCell_or (setCell m (r - dr) (c - dc) TILE_MONSTER) r c
              TILE_OPEN with h' | h'
            · rw [h']; decide
            · rw [h']
              rcases getCell_setCell_cases m (r - dr) (c - dc) TILE_MONSTER r c with
                h'' | h''
              · rw [h'']; decide
              · rw [h'', hm]; decide
        · rw [if_neg hm]
          apply ih
          · rfl
          · simp only [add_sub_cancel_right]
            exact hp
    · rw [if_neg hb]

theorem foldCk_ok (R C : Int) (F : Nat) (p : Player) :
    ∀ (ds : List (Int × Int)) (m : Grid) (ok : Bool),
      ok = true →
      getCell m p.row p.col ≠ TILE_PILLAR →
      (ds.foldl
        (fun acc d => scanRayCk nonPillarCk d.1 d.2 R C F
          (p.row + d.1) (p.col + d.2) acc.1 acc.2) (m, ok)).2 = true := by
  intro ds
  induction ds with
  | nil => intro m ok hok h; exact hok
  | cons d ds ih =>
    intro m ok hok h
    rw [List.foldl_cons]
    have hok' : (scanRayCk nonPillarCk d.1 d.2 R C F (p.row + d.1) (p.col + d.2) m ok).2 =
        true := by
      apply scanRayCk_nonPillar
      · exact hok
      · simp only [add_sub_cancel_right]
        exact h
    have hpl' : getCell (scanRayCk nonPillarCk d.1 d.2 R C F (p.row + d.1) (p.col + d.2)
        m ok).1 p.row p.col ≠ TILE_PILLAR := by
      rw [scanRayCk_fst]
      exact scanRay_ne_pillar _ _ _ _ _ _ _ _ _ _ h
    have := ih (scanRayCk nonPillarCk d.1 d.2 R C F (p.row + d.1) (p.col + d.2) m ok).1
      (scanRayCk nonPillarCk d.1 d.2 R C F (p.row + d.1) (p.col + d.2) m ok).2 hok' hpl'
    simpa using this

/-- Audited monster pursuit: whenever the player's cell is not a pillar,
every cell a monster is advanced into is, at that moment, not a pillar
(it may hold any other tile, which is overwritten). -/
theorem doMonsterAttackCk_nonPillar (m : Grid) (R C : Int) (p : Player)
    (h : getCell m p.row p.col ≠ TILE_PILLAR) :
    (doMonsterAttackCk nonPillarCk m R C p).2 = true :=
  foldCk_ok R C (attackFuel R C) p dirs m true rfl h

theorem attackFold_values (R C : Int) (F : Nat) (p : Player) :
    ∀ (ds : List (Int × Int)) (m : Grid) (q1 q2 : Int),
      getCell (ds.foldl
        (fun acc d => scanRay d.1 d.2 R C F (p.row + d.1) (p.col + d.2) acc) m) q1 q2 =
        getCell m q1 q2 ∨
      getCell (ds.foldl
        (fun acc d => scanRay d.1 d.2 R C F (p.row + d.1) (p.col + d.2) acc) m) q1 q2 =
        TILE_MONSTER ∨
      getCell (ds.foldl
        (fun acc d => scanRay d.1 d.2 R C F (p.row + d.1) (p.col + d.2) acc) m) q1 q2 =
        TILE_OPEN := by
  intro ds
  induction ds with
  | nil => intro m q1 q2; left; rfl
  | cons d ds ih =>
    intro m q1 q2
    rw [List.foldl_cons]
    rcases ih (scanRay d.1 d.2 R C F (p.row + d.1) (p.col + d.2) m) q1 q2 with h | h | h
    · rw [h]
      rcases scanRay_values d.1 d.2 R C F (p.row + d.1) (p.col + d.2) m q1 q2 with
        h' | h' | h'
      · left; exact h'
      · right; left; exact h'
      · right; right; exact h'
    · right; left; exact h
    · right; right; exact h

theorem attackFold_behind (R C : Int) (F : Nat) (p : Player) :
    ∀ (ds : List (Int × Int)), (∀ d ∈ ds, d ∈ dirs) → ∀ (m : Grid),
      getCell (ds.foldl
        (fun acc d => scanRay d.1 d.2 R C F (p.row + d.1) (p.col + d.2) acc) m)
        p.row p.col = getCell m p.row p.col ∨
      getCell (ds.foldl
        (fun acc d => scanRay d.1 d.2 R C F (p.row + d.1) (p.col + d.2) acc) m)
        p.row p.col = TILE_MONSTER := by
  intro ds
  induction ds with
  | nil => intro _ m; left; rfl
  | cons d ds ih =>
    intro hds m
    rw [List.foldl_cons]
    have hstep := scanRay_behind (hds d (by simp)) R C F (p.row + d.1) (p.col + d.2) m
    simp only [add_sub_cancel_right] at hstep
    rcases ih (fun x hx => hds x (by simp [hx])) (scanRay d.1 d.2 R C F (p.row + d.1)
      (p.col + d.2) m) with h | h
    · rw [h]
      exact hstep
    · right; exact h

theorem attackFold_wellFormed (R C : Int) (F : Nat) (p : Player) :
    ∀ (ds : List (Int × Int)) (m : Grid), wellFormed m R C →
      wellFormed (ds.foldl
        (fun acc d => scanRay d.1 d.2 R C F (p.row + d.1) (p.col + d.2) acc) m) R C := by
  intro ds
  induction ds with
  | nil => intro m h; exact h
  | cons d ds ih =>
    intro m h
    rw [List.foldl_cons]
    exact ih _ (scanRay_wellFormed _ _ _ _ _ h)

/-- The capture flag returned by `doMonsterAttack` is precisely the test
of the player's cell in the returned (fully scanned) map. -/
theorem doMonsterAttack_snd_eq (m : Grid) (R C : Int) (p : Player) :
    (doMonsterAttack m R C p).2 =
      (getCell (doMonsterAttack m R C p).1 p.row p.col == TILE_MONSTER) := rfl

/-- The map returned by `doMonsterAttack` as a fold of the four ray scans
over the direction table. -/
theorem doMonsterAttack_fst_foldl (m : Grid) (R C : Int) (p : Player) :
    (doMonsterAttack m R C p).1 =
      dirs.foldl
        (fun acc d => scanRay d.1 d.2 R C (attackFuel R C)
          (p.row + d.1) (p.col + d.2) acc) m := rfl

/-- The dual-representation invariant of the spec (§3): the cell at the
player's coordinates holds the Player tile and no other in-bounds cell
does.  (Under `wellFormed` the grid has no cells outside
`[0,R) × [0,C)`.) -/
def uniquePlayer (m : Grid) (R C : Int) (p : Player) : Prop :=
  getCell m p.row p.col = TILE_PLAYER ∧
  ∀ r : Nat, r < R.toNat → ∀ c : Nat, c < C.toNat →
    getCell m (r : Int) (c : Int) = TILE_PLAYER → ((r : Int) = p.row ∧ (c : Int) = p.col)

instance (m : Grid) (R C : Int) (p : Player) : Decidable (uniquePlayer m R C p) := by
  unfold uniquePlayer
  infer_instance

/-- The three blocked/invalid cases of `doPlayerMove` return `STATUS_STAY`
and leave both map and player untouched. -/
theorem doPlayerMove_stay (m : Grid) (R C : Int) (p : Player) (nr nc : Int)
    (h : (nr ≥ R ∨ nr < 0 ∨ nc ≥ C ∨ nc < 0) ∨
      getCell m nr nc = TILE_PILLAR ∨ getCell m nr nc = TILE_MONSTER ∨
      (getCell m nr nc = TILE_EXIT ∧ p.treasure = 0)) :
    doPlayerMove m R C p nr nc = (STATUS_STAY, m, p) := by
  simp only [doPlayerMove]
  by_cases hb : nr ≥ R ∨ nr < 0 ∨ nc ≥ C ∨ nc < 0
  · rw [if_pos hb]
  · rw [if_neg hb]
    rcases h with h | h | h | h
    · exact absurd h hb
    · rw [if_pos (Or.inl h)]
    · rw [if_pos (Or.inr h)]
    · rw [if_neg (by rw [h.1]; decide), if_pos h]

/-- The allowed-move case of `doPlayerMove`: the outcome is computed by
the source's chain of tile tests, the player's former cell is opened, the
target cell is stamped with the player tile, and the player's position
(and, on treasure, count) is updated. -/
theorem doPlayerMove_move (m : Grid) (R C : Int) (p : Player) (nr nc : Int)
    (hb : ¬(nr ≥ R ∨ nr < 0 ∨ nc ≥ C ∨ nc < 0))
    (hpm : ¬(getCell m nr nc = TILE_PILLAR ∨ getCell m nr nc = TILE_MONSTER))
    (hex : ¬(getCell m nr nc = TILE_EXIT ∧ p.treasure = 0)) :
    doPlayerMove m R C p nr nc =
      (if getCell m nr nc = TILE_TREASURE then STATUS_TREASURE
       else if getCell m nr nc = TILE_AMULET then STATUS_AMULET
       else if getCell m nr nc = TILE_EXIT ∧ p.treasure > 0 then STATUS_ESCAPE
       else if getCell m nr nc = TILE_DOOR then STATUS_LEAVE
       else STATUS_MOVE,
       setCell (setCell m p.row p.col TILE_OPEN) nr nc TILE_PLAYER,
       { row := nr, col := nc,
         treasure := if getCell m nr nc = TILE_TREASURE then p.treasure + 1
           else p.treasure }) := by
  simp only [doPlayerMove]
  rw [if_neg hb, if_neg hpm, if_neg hex]

/-- `doPlayerMove` maintains the player-tile invariant, in every case. -/
theorem doPlayerMove_uniquePlayer (m : Grid) (R C : Int) (p : Player) (nr nc : Int)
    (hwf : wellFormed m R C) (hup : uniquePlayer m R C p) :
    uniquePlayer (doPlayerMove m R C p nr nc).2.1 R C
      (doPlayerMove m R C p nr nc).2.2 := by
  by_cases hb : nr ≥ R ∨ nr < 0 ∨ nc ≥ C ∨ nc < 0
  · rw [doPlayerMove_stay m R C p nr nc (Or.inl hb)]
    exact hup
  · by_cases hpm : getCell m nr nc = TILE_PILLAR ∨ getCell m nr nc = TILE_MONSTER
    · rcases hpm with h | h
      · rw [doPlayerMove_stay m R C p nr nc (Or.inr (Or.inl h))]
        exact hup
      · rw [doPlayerMove_stay m R C p nr nc (Or.inr (Or.inr (Or.inl h)))]
        exact hup
    · by_cases hex : getCell m nr nc = TILE_EXIT ∧ p.treasure = 0
      · rw [doPlayerMove_stay m R C p nr nc (Or.inr (Or.inr (Or.inr hex)))]
        exact hup
      · rw [doPlayerMove_move m R C p nr nc hb hpm hex]
        have hpin := inRange_of_getCell_ne_unset (m := m) (r := p.row) (c := p.col)
          (by rw [hup.1]; decide)
        have hnrb : 0 ≤ nr ∧ nr < R ∧ 0 ≤ nc ∧ nc < C := by omega
        have hm1len : (setCell m p.row p.col TILE_OPEN).length = R.toNat := by
          rw [length_setCell]; exact hwf.1
        constructor
        · apply getCell_setCell_self TILE_PLAYER hnrb.1 hnrb.2.2.1
          · rw [hm1len]; omega
          · rw [rowIdx_length_setCell, wf_rowIdx_length hwf (by rw [hwf.1]; omega)]
            omega
        · intro r hr c hc hcell
          by_cases heq : (r : Int) = nr ∧ (c : Int) = nc
          · exact heq
          · exfalso
            rw [getCell_setCell_ne _ (fun hh => heq ⟨hh.1.symm, hh.2.symm⟩)] at hcell
            by_cases hq : p.row = (r : Int) ∧ p.col = (c : Int)
            · rw [← hq.1, ← hq.2] at hcell
              rw [getCell_setCell_self TILE_OPEN hpin.1 hpin.2.1 hpin.2.2.1
                hpin.2.2.2] at hcell
              exact absurd hcell (by decide)
            · rw [getCell_setCell_ne _ hq] at hcell
              have huniq := hup.2 r hr c hc hcell
              exact hq ⟨huniq.1.symm, huniq.2.symm⟩

/-- `doMonsterAttack` maintains the player-tile invariant exactly when it
reports no capture; on capture the player's cell holds the Monster
tile. -/
theorem doMonsterAttack_uniquePlayer (m : Grid) (R C : Int) (p : Player)
    (hup : uniquePlayer m R C p) :
    ((doMonsterAttack m R C p).2 = false →
      uniquePlayer (doMonsterAttack m R C p).1 R C p) ∧
    ((doMonsterAttack m R C p).2 = true →
      getCell (doMonsterAttack m R C p).1 p.row p.col = TILE_MONSTER) := by
  constructor
  · intro hcap
    have hne : getCell (doMonsterAttack m R C p).1 p.row p.col ≠ TILE_MONSTER := by
      intro hM
      rw [doMonsterAttack_snd_eq, hM] at hcap
      simp at hcap
    constructor
    · have hb := attackFold_behind R C (attackFuel R C) p dirs (fun d hd => hd) m
      rw [← doMonsterAttack_fst_foldl] at hb
      rcases hb with h | h
      · rw [h]; exact hup.1
      · exact absurd h hne
    · intro r hr c hc hcell
      have hv := attackFold_values R C (attackFuel R C) p dirs m (r : Int) (c : Int)
      rw [← doMonsterAttack_fst_foldl] at hv
      rcases hv with h | h | h
      · exact hup.2 r hr c hc (by rw [← h]; exact hcell)
      · rw [hcell] at h; exact absurd h (by decide)
      · rw [hcell] at h; exact absurd h (by decide)
  · intro hcap
    rw [doMonsterAttack_snd_eq] at hcap
    exact beq_iff_eq.mp hcap

theorem getCell_buildGrid (n k : Int) (f : Int → Int → Char) (r c : Int)
    (hr : 0 ≤ r) (hrn : r < n) (hc : 0 ≤ c) (hck : c < k) :
    getCell (buildGrid n k f) r c = f r c := by
  unfold getCell buildGrid
  rw [if_pos ⟨hr, hc⟩]
  have hrn' : r.toNat < n.toNat := by omega
  have hck' : c.toNat < k.toNat := by omega
  rw [rowIdx, idxD_eq_get? ([] : List Char), List.get?_map, List.get?_range hrn']
  simp only [Option.map_some', Option.getD_some]
  rw [idxD_eq_get? CELL_UNSET, List.get?_map, List.get?_range hck']
  simp only [Option.map_some', Option.getD_some]
  show f (Int.ofNat r.toNat) (Int.ofNat c.toNat) = f r c
  rw [show Int.ofNat r.toNat = r from Int.toNat_of_nonneg hr,
    show Int.ofNat c.toNat = c from Int.toNat_of_nonneg hc]

theorem buildGrid_wellFormed (n k : Int) (f : Int → Int → Char) :
    wellFormed (buildGrid n k f) n k := by
  constructor
  · simp [buildGrid]
  · intro row hrow
    simp only [buildGrid, List.mem_map] at hrow
    obtain ⟨r, _, rfl⟩ := hrow
    simp

/-- The quadrant layout produced by `resizeMap`: doubled dimensions, an
exact copy in the top-left quadrant, and player-erased copies in the
other three. -/
theorem resizeMap_spec (map : Grid) (R C : Int) (r c : Int)
    (hR : 0 ≤ R) (hC : 0 ≤ C) (hr : 0 ≤ r) (hrR : r < R) (hc : 0 ≤ c) (hcC : c < C) :
    (resizeMap map R C).2.1 = 2 * R ∧ (resizeMap map R C).2.2 = 2 * C ∧
    getCell (resizeMap map R C).1 r c = getCell map r c ∧
    getCell (resizeMap map R C).1 r (c + C) = noPlayerCell (getCell map r c) ∧
    getCell (resizeMap map R C).1 (r + R) c = noPlayerCell (getCell map r c) ∧
    getCell (resizeMap map R C).1 (r + R) (c + C) = noPlayerCell (getCell map r c) := by
  have hfst : (resizeMap map R C).1 = buildGrid (R * 2) (C * 2) (fun a b =>
      if a < R then
        if b < C then getCell map a b else noPlayerCell (getCell map a (b - C))
      else
        if b < C then noPlayerCell (getCell map (a - R) b)
        else noPlayerCell (getCell map (a - R) (b - C))) := rfl
  refine ⟨by simp only [resizeMap]; ring, by simp only [resizeMap]; ring, ?_, ?_, ?_, ?_⟩
  · rw [hfst, getCell_buildGrid _ _ _ r c hr (by omega) hc (by omega)]
    rw [if_pos hrR, if_pos hcC]
  · rw [hfst, getCell_buildGrid _ _ _ r (c + C) hr (by omega) (by omega) (by omega)]
    rw [if_pos hrR, if_neg (by omega : ¬(c + C < C))]
    rw [add_sub_cancel_right]
  · rw [hfst, getCell_buildGrid _ _ _ (r + R) c (by omega) (by omega) hc (by omega)]
    rw [if_neg (by omega : ¬(r + R < R)), if_pos hcC]
    rw [add_sub_cancel_right]
  · rw [hfst, getCell_buildGrid _ _ _ (r + R) (c + C) (by omega) (by omega) (by omega) (by omega)]
    rw [if_neg (by omega : ¬(r + R < R)), if_neg (by omega : ¬(c + C < C))]
    rw [add_sub_cancel_right, add_sub_cancel_right]

theorem foldCk_fst (P : Char → Bool) (R C : Int) (F : Nat) (p : Player) :
    ∀ (ds : List (Int × Int)) (m : Grid) (ok : Bool),
      (ds.foldl (fun acc d => scanRayCk P d.1 d.2 R C F
        (p.row + d.1) (p.col + d.2) acc.1 acc.2) (m, ok)).1 =
      ds.foldl (fun acc d => scanRay d.1 d.2 R C F
        (p.row + d.1) (p.col + d.2) acc) m := by
  intro ds
  induction ds with
  | nil => intro m ok; rfl
  | cons d ds ih =>
    intro m ok
    rw [List.foldl_cons, List.foldl_cons]
    have h := ih (scanRayCk P d.1 d.2 R C F (p.row + d.1) (p.col + d.2) m ok).1
      (scanRayCk P d.1 d.2 R C F (p.row + d.1) (p.col + d.2) m ok).2
    rw [Prod.mk.eta] at h
    rw [h, scanRayCk_fst]

theorem doMonsterAttackCk_fst (P : Char → Bool) (m : Grid) (R C : Int) (p : Player) :
    (doMonsterAttackCk P m R C p).1 = (doMonsterAttack m R C p).1 :=
  foldCk_fst P R C (attackFuel R C) p dirs m true

/-- The audit predicate matching the claim's wording: the overwritten
cell holds Open or Player. -/
def openPlayerCk : Char → Bool := fun t => (t == TILE_OPEN) || (t == TILE_PLAYER)

/-- C2 (amended): in `doMonsterAttack`, every Monster with pillar-free,
in-bounds line of sight to the player — at distance `t + 1` along one of
the four rays, even when further Monster tiles sit nearer the player on
the same ray — is advanced one cell toward the player in the same call.
The scan does not stop after advancing the nearest Monster, so Monster
tiles further out on the same ray also move. -/
theorem C2_all_los_monsters_advance (m : Grid) (R C : Int) (p : Player)
    (dr dc : Int) (t : Nat) (hdir : (dr, dc) ∈ dirs)
    (hwf : wellFormed m R C)
    (hpb : 0 ≤ p.row ∧ p.row < R ∧ 0 ≤ p.col ∧ p.col < C)
    (hin : ∀ i : Nat, i ≤ t + 1 → 1 ≤ i →
      0 ≤ p.row + i * dr ∧ p.row + i * dr < R ∧
      0 ≤ p.col + i * dc ∧ p.col + i * dc < C)
    (hnp : ∀ i : Nat, i ≤ t → 1 ≤ i →
      getCell m (p.row + i * dr) (p.col + i * dc) ≠ TILE_PILLAR)
    (hM : getCell m (p.row + ((t + 1 : Nat) : Int) * dr)
      (p.col + ((t + 1 : Nat) : Int) * dc) = TILE_MONSTER) :
    getCell (doMonsterAttack m R C p).1
      (p.row + ((t + 1 : Nat) : Int) * dr - dr)
      (p.col + ((t + 1 : Nat) : Int) * dc - dc) = TILE_MONSTER :=
  doMonsterAttack_monster_advances m R C p hdir t hwf hpb
    (fun i h1 h2 => hin i h2 h1) (fun i h1 h2 => hnp i (by omega) h1) hM

/-- Witness for C2: on the row `Player, Open, Monster, Open, Monster`,
the monster at distance 4 — further out than the nearest monster at
distance 2 — advances to distance 3 in the same call. -/
theorem C2_witness :
    getCell [[TILE_PLAYER, TILE_OPEN, TILE_MONSTER, TILE_OPEN, TILE_MONSTER]] 0 2 =
      TILE_MONSTER ∧
    getCell [[TILE_PLAYER, TILE_OPEN, TILE_MONSTER, TILE_OPEN, TILE_MONSTER]] 0 4 =
      TILE_MONSTER ∧
    getCell (doMonsterAttack
      [[TILE_PLAYER, TILE_OPEN, TILE_MONSTER, TILE_OPEN, TILE_MONSTER]]
      1 5 ⟨0, 0, 0⟩).1 0 3 = TILE_MONSTER := by
  refine ⟨by decide, by decide, ?_⟩
  have h := C2_all_los_monsters_advance
    [[TILE_PLAYER, TILE_OPEN, TILE_MONSTER, TILE_OPEN, TILE_MONSTER]] 1 5 ⟨0, 0, 0⟩
    0 1 3 dir_right_mem (by decide) (by decide) (by decide) (by decide) (by decide)
  simpa using h

/-- Counterexample to C2 as stated: with monsters at distances 2 and 4 on
the right ray, the further monster also moves in the same call (its cell
is vacated and the cell nearer the player becomes Monster), so it is not
true that only the nearest Monster per ray advances. -/
theorem C2_counterexample :
    getCell [[TILE_PLAYER, TILE_OPEN, TILE_MONSTER, TILE_OPEN, TILE_MONSTER]] 0 4 =
      TILE_MONSTER ∧
    getCell (doMonsterAttack
      [[TILE_PLAYER, TILE_OPEN, TILE_MONSTER, TILE_OPEN, TILE_MONSTER]]
      1 5 ⟨0, 0, 0⟩).1 0 4 = TILE_OPEN ∧
    getCell (doMonsterAttack
      [[TILE_PLAYER, TILE_OPEN, TILE_MONSTER, TILE_OPEN, TILE_MONSTER]]
      1 5 ⟨0, 0, 0⟩).1 0 3 = TILE_MONSTER ∧
    getCell (doMonsterAttack
      [[TILE_PLAYER, TILE_OPEN, TILE_MONSTER, TILE_OPEN, TILE_MONSTER]]
      1 5 ⟨0, 0, 0⟩).1 0 1 = TILE_MONSTER := by
  decide

/-- C3 (amended): whenever `doMonsterAttack` advances a Monster, the cell
it is written into does not hold Pillar at that moment — but it need not
be Open or Player: any other tile there is overwritten.  The audited
computation agrees with `doMonsterAttack` on the resulting map.  The only
hypothesis is that the player's own cell is not a Pillar. -/
theorem C3_monster_advance_target_never_pillar (m : Grid) (R C : Int) (p : Player)
    (h : getCell m p.row p.col ≠ TILE_PILLAR) :
    (doMonsterAttackCk nonPillarCk m R C p).2 = true ∧
    (doMonsterAttackCk nonPillarCk m R C p).1 = (doMonsterAttack m R C p).1 :=
  ⟨doMonsterAttackCk_nonPillar m R C p h, doMonsterAttackCk_fst nonPillarCk m R C p⟩

/-- Witness for C3 at a concrete map. -/
theorem C3_witness :
    getCell [[TILE_PLAYER, TILE_TREASURE, TILE_MONSTER]] 0 0 ≠ TILE_PILLAR ∧
    (doMonsterAttackCk nonPillarCk [[TILE_PLAYER, TILE_TREASURE, TILE_MONSTER]]
      1 3 ⟨0, 0, 0⟩).2 = true ∧
    (doMonsterAttackCk nonPillarCk [[TILE_PLAYER, TILE_TREASURE, TILE_MONSTER]]
      1 3 ⟨0, 0, 0⟩).1 =
      (doMonsterAttack [[TILE_PLAYER, TILE_TREASURE, TILE_MONSTER]] 1 3 ⟨0, 0, 0⟩).1 :=
  ⟨by decide,
   C3_monster_advance_target_never_pillar [[TILE_PLAYER, TILE_TREASURE, TILE_MONSTER]]
     1 3 ⟨0, 0, 0⟩ (by decide)⟩

/-- Counterexample to C3 as stated: on the row `Player, Treasure,
Monster` the monster is advanced onto the Treasure cell, which holds
neither Open nor Player at that moment (the audit with the claim's
predicate fails), and the Treasure is destroyed. -/
theorem C3_counterexample :
    getCell [[TILE_PLAYER, TILE_TREASURE, TILE_MONSTER]] 0 1 = TILE_TREASURE ∧
    (doMonsterAttackCk openPlayerCk [[TILE_PLAYER, TILE_TREASURE, TILE_MONSTER]]
      1 3 ⟨0, 0, 0⟩).2 = false ∧
    getCell (doMonsterAttack [[TILE_PLAYER, TILE_TREASURE, TILE_MONSTER]]
      1 3 ⟨0, 0, 0⟩).1 0 1 = TILE_MONSTER := by
  decide

/-- C9: `doMonsterAttack` returns `true` exactly when the player's own
cell holds Monster in the returned map, and the returned map is the
composition of the four directional ray scans, so the capture check is a
single test performed after all four scans, never interleaved. -/
theorem C9_capture_check_once_after_scans (m : Grid) (R C : Int) (p : Player) :
    ((doMonsterAttack m R C p).2 = true ↔
      getCell (doMonsterAttack m R C p).1 p.row p.col = TILE_MONSTER) ∧
    (doMonsterAttack m R C p).1 =
      dirs.foldl (fun acc d => scanRay d.1 d.2 R C (attackFuel R C)
        (p.row + d.1) (p.col + d.2) acc) m := by
  refine ⟨?_, rfl⟩
  rw [doMonsterAttack_snd_eq]
  exact beq_iff_eq

/-- C10: `doMonsterAttack` takes the player by `const` reference and its
game-state effect leaves every player field (row, column, treasure) and
the map dimensions unchanged; only the map cells are replaced. -/
theorem C10_attack_preserves_player (s : GameState) :
    ((advanceMonsters s).1).player = s.player ∧
    ((advanceMonsters s).1).maxRow = s.maxRow ∧
    ((advanceMonsters s).1).maxCol = s.maxCol :=
  ⟨rfl, rfl, rfl⟩

/-- C5 (amended): `doPlayerMove` always maintains the coupled
player-position/Player-tile invariant; `doMonsterAttack` maintains it
exactly when it reports no capture — when it reports capture, the
player's cell holds Monster (the Player tile has been overwritten), so
the invariant is deliberately broken in that terminal state. -/
theorem C5_player_tile_consistency (m : Grid) (R C : Int) (p : Player) (nr nc : Int)
    (hwf : wellFormed m R C) (hup : uniquePlayer m R C p) :
    uniquePlayer (doPlayerMove m R C p nr nc).2.1 R C (doPlayerMove m R C p nr nc).2.2 ∧
    ((doMonsterAttack m R C p).2 = false →
      uniquePlayer (doMonsterAttack m R C p).1 R C p) ∧
    ((doMonsterAttack m R C p).2 = true →
      getCell (doMonsterAttack m R C p).1 p.row p.col = TILE_MONSTER) :=
  ⟨doPlayerMove_uniquePlayer m R C p nr nc hwf hup,
   (doMonsterAttack_uniquePlayer m R C p hup).1,
   (doMonsterAttack_uniquePlayer m R C p hup).2⟩

/-- Witness for C5 at a concrete map. -/
theorem C5_witness :
    wellFormed [[TILE_PLAYER, TILE_OPEN]] 1 2 ∧
    uniquePlayer [[TILE_PLAYER, TILE_OPEN]] 1 2 ⟨0, 0, 0⟩ ∧
    (uniquePlayer (doPlayerMove [[TILE_PLAYER, TILE_OPEN]] 1 2 ⟨0, 0, 0⟩ 0 1).2.1 1 2
      (doPlayerMove [[TILE_PLAYER, TILE_OPEN]] 1 2 ⟨0, 0, 0⟩ 0 1).2.2 ∧
    ((doMonsterAttack [[TILE_PLAYER, TILE_OPEN]] 1 2 ⟨0, 0, 0⟩).2 = false →
      uniquePlayer (doMonsterAttack [[TILE_PLAYER, TILE_OPEN]] 1 2 ⟨0, 0, 0⟩).1 1 2
        ⟨0, 0, 0⟩) ∧
    ((doMonsterAttack [[TILE_PLAYER, TILE_OPEN]] 1 2 ⟨0, 0, 0⟩).2 = true →
      getCell (doMonsterAttack [[TILE_PLAYER, TILE_OPEN]] 1 2 ⟨0, 0, 0⟩).1 0 0 =
        TILE_MONSTER)) :=
  ⟨by decide, by decide,
   C5_player_tile_consistency [[TILE_PLAYER, TILE_OPEN]] 1 2 ⟨0, 0, 0⟩ 0 1
     (by decide) (by decide)⟩

/-- Counterexample to C5 as stated: starting from a consistent state with
a monster adjacent to the player, `doMonsterAttack` overwrites the
player's cell with Monster, so the cell at the player's coordinates no
longer holds the Player tile after the call. -/
theorem C5_counterexample :
    wellFormed [[TILE_PLAYER, TILE_MONSTER]] 1 2 ∧
    uniquePlayer [[TILE_PLAYER, TILE_MONSTER]] 1 2 ⟨0, 0, 0⟩ ∧
    getCell (doMonsterAttack [[TILE_PLAYER, TILE_MONSTER]] 1 2 ⟨0, 0, 0⟩).1 0 0 =
      TILE_MONSTER ∧
    getCell (doMonsterAttack [[TILE_PLAYER, TILE_MONSTER]] 1 2 ⟨0, 0, 0⟩).1 0 0 ≠
      TILE_PLAYER := by
  decide

/-- C6: `resizeMap` on an `R × C` map yields a `2R × 2C` map whose
top-left quadrant equals the original exactly (including any Player
tile) and whose top-right, bottom-left and bottom-right quadrants equal
the original with every Player tile replaced by Open. -/
theorem C6_resize_quadrants (map : Grid) (R C : Int) (r c : Int)
    (hR : 0 ≤ R) (hC : 0 ≤ C) (hr : 0 ≤ r) (hrR : r < R) (hc : 0 ≤ c) (hcC : c < C) :
    (resizeMap map R C).2.1 = 2 * R ∧ (resizeMap map R C).2.2 = 2 * C ∧
    getCell (resizeMap map R C).1 r c = getCell map r c ∧
    getCell (resizeMap map R C).1 r (c + C) = noPlayerCell (getCell map r c) ∧
    getCell (resizeMap map R C).1 (r + R) c = noPlayerCell (getCell map r c) ∧
    getCell (resizeMap map R C).1 (r + R) (c + C) = noPlayerCell (getCell map r c) :=
  resizeMap_spec map R C r c hR hC hr hrR hc hcC

/-- Witness for C6 at the one-cell map holding the Player tile. -/
theorem C6_witness :
    (0 : Int) < 1 ∧
    ((resizeMap [[TILE_PLAYER]] 1 1).2.1 = 2 * 1 ∧
    (resizeMap [[TILE_PLAYER]] 1 1).2.2 = 2 * 1 ∧
    getCell (resizeMap [[TILE_PLAYER]] 1 1).1 0 0 = getCell [[TILE_PLAYER]] 0 0 ∧
    getCell (resizeMap [[TILE_PLAYER]] 1 1).1 0 (0 + 1) =
      noPlayerCell (getCell [[TILE_PLAYER]] 0 0) ∧
    getCell (resizeMap [[TILE_PLAYER]] 1 1).1 (0 + 1) 0 =
      noPlayerCell (getCell [[TILE_PLAYER]] 0 0) ∧
    getCell (resizeMap [[TILE_PLAYER]] 1 1).1 (0 + 1) (0 + 1) =
      noPlayerCell (getCell [[TILE_PLAYER]] 0 0)) :=
  ⟨by decide,
   C6_resize_quadrants [[TILE_PLAYER]] 1 1 0 0 (by decide) (by decide) (by decide)
     (by decide) (by decide) (by decide)⟩

/-- C7: when the target cell is out of bounds, or holds Pillar or
Monster, or holds Exit while the player's treasure count is zero,
`doPlayerMove` returns `STATUS_STAY` and leaves the map and the player
(position and treasure) entirely unchanged. -/
theorem C7_blocked_moves_stay (m : Grid) (R C : Int) (p : Player) (nr nc : Int)
    (h : (nr ≥ R ∨ nr < 0 ∨ nc ≥ C ∨ nc < 0) ∨
      getCell m nr nc = TILE_PILLAR ∨ getCell m nr nc = TILE_MONSTER ∨
      (getCell m nr nc = TILE_EXIT ∧ p.treasure = 0)) :
    doPlayerMove m R C p nr nc = (STATUS_STAY, m, p) :=
  doPlayerMove_stay m R C p nr nc h

/-- Witness for C7 at a concrete blocked move (target holds Pillar). -/
theorem C7_witness :
    getCell [[TILE_PLAYER, TILE_PILLAR]] 0 1 = TILE_PILLAR ∧
    doPlayerMove [[TILE_PLAYER, TILE_PILLAR]] 1 2 ⟨0, 0, 0⟩ 0 1 =
      (STATUS_STAY, [[TILE_PLAYER, TILE_PILLAR]], ⟨0, 0, 0⟩) :=
  ⟨by decide,
   C7_blocked_moves_stay [[TILE_PLAYER, TILE_PILLAR]] 1 2 ⟨0, 0, 0⟩ 0 1
     (Or.inr (Or.inl (by decide)))⟩

/-- C8: a directional move onto an in-bounds Treasure cell returns
`STATUS_TREASURE`, increments the treasure count by exactly one, moves
the player to the target, stamps the target cell with the Player tile and
opens the player's former cell. -/
theorem C8_treasure_move (m : Grid) (R C : Int) (p : Player) (input : Char)
    (nr nc : Int)
    (hinput : input = MOVE_UP ∨ input = MOVE_DOWN ∨ input = MOVE_LEFT ∨
      input = MOVE_RIGHT)
    (hdir : getDirection input p.row p.col = (nr, nc))
    (hwf : wellFormed m R C)
    (hpb : 0 ≤ p.row ∧ p.row < R ∧ 0 ≤ p.col ∧ p.col < C)
    (hb : 0 ≤ nr ∧ nr < R ∧ 0 ≤ nc ∧ nc < C)
    (ht : getCell m nr nc = TILE_TREASURE) :
    doPlayerMove m R C p nr nc =
      (STATUS_TREASURE,
       setCell (setCell m p.row p.col TILE_OPEN) nr nc TILE_PLAYER,
       { row := nr, col := nc, treasure := p.treasure + 1 }) ∧
    getCell (setCell (setCell m p.row p.col TILE_OPEN) nr nc TILE_PLAYER) nr nc =
      TILE_PLAYER ∧
    getCell (setCell (setCell m p.row p.col TILE_OPEN) nr nc TILE_PLAYER)
      p.row p.col = TILE_OPEN := by
  have hne : ¬(nr = p.row ∧ nc = p.col) := by
    rcases hinput with rfl | rfl | rfl | rfl
    · rw [getDirection, if_pos rfl] at hdir
      injection hdir with h1 h2
      intro hk
      omega
    · rw [getDirection, if_neg (by decide), if_pos rfl] at hdir
      injection hdir with h1 h2
      intro hk
      omega
    · rw [getDirection, if_neg (by decide), if_neg (by decide), if_pos rfl] at hdir
      injection hdir with h1 h2
      intro hk
      omega
    · rw [getDirection, if_neg (by decide), if_neg (by decide), if_neg (by decide),
        if_pos rfl] at hdir
      injection hdir with h1 h2
      intro hk
      omega
  have hbne : ¬(nr ≥ R ∨ nr < 0 ∨ nc ≥ C ∨ nc < 0) := by omega
  have hpm : ¬(getCell m nr nc = TILE_PILLAR ∨ getCell m nr nc = TILE_MONSTER) := by
    rw [ht]; decide
  have hex : ¬(getCell m nr nc = TILE_EXIT ∧ p.treasure = 0) := by
    rw [ht]
    intro hh
    exact absurd hh.1 (by decide)
  have hm1len : (setCell m p.row p.col TILE_OPEN).length = R.toNat := by
    rw [length_setCell]; exact hwf.1
  refine ⟨?_, ?_, ?_⟩
  · rw [doPlayerMove_move m R C p nr nc hbne hpm hex, if_pos ht, if_pos ht]
  · apply getCell_setCell_self TILE_PLAYER hb.1 hb.2.2.1
    · rw [hm1len]; omega
    · rw [rowIdx_length_setCell, wf_rowIdx_length hwf (by rw [hwf.1]; omega)]
      omega
  · rw [getCell_setCell_ne _ hne]
    apply getCell_setCell_self TILE_OPEN hpb.1 hpb.2.2.1
    · rw [hwf.1]; omega
    · rw [wf_rowIdx_length hwf (by rw [hwf.1]; omega)]
      omega

/-- Witness for C8: stepping right onto a Treasure cell. -/
theorem C8_witness :
    getCell [[TILE_PLAYER, TILE_TREASURE]] 0 1 = TILE_TREASURE ∧
    (doPlayerMove [[TILE_PLAYER, TILE_TREASURE]] 1 2 ⟨0, 0, 5⟩ 0 1 =
      (STATUS_TREASURE,
       setCell (setCell [[TILE_PLAYER, TILE_TREASURE]] 0 0 TILE_OPEN) 0 1 TILE_PLAYER,
       { row := 0, col := 1, treasure := 5 + 1 }) ∧
    getCell (setCell (setCell [[TILE_PLAYER, TILE_TREASURE]] 0 0 TILE_OPEN) 0 1
      TILE_PLAYER) 0 1 = TILE_PLAYER ∧
    getCell (setCell (setCell [[TILE_PLAYER, TILE_TREASURE]] 0 0 TILE_OPEN) 0 1
      TILE_PLAYER) 0 0 = TILE_OPEN) :=
  ⟨by decide,
   C8_treasure_move [[TILE_PLAYER, TILE_TREASURE]] 1 2 ⟨0, 0, 5⟩ MOVE_RIGHT 0 1
     (Or.inr (Or.inr (Or.inr rfl))) (by decide) (by decide) (by decide) (by decide)
     (by decide)⟩

/-- C1: evidence that the CapacityOverflow guard is not enforced.
`createMap` contains no overflow check at all and allocates a map for
`65536 × 65536` cells (a cell count of `2^32 > INT32_MAX`); `resizeMap`
computes its guard condition (`logic.cpp:141`) — which is satisfied for
`maxCol = 2^30` — into an `if` whose body is empty, then proceeds
unconditionally and returns a doubled `2 × 2^31` map instead of failing.
Only `loadLevel` enforces the guard (see `C4_load_failure_behaviour`). -/
theorem C1_overflow_guard_not_enforced :
    (createMap 65536 65536).isSome = true ∧
    resizeMapGuard false 1 1073741824 ∧
    (resizeMap [List.replicate (2 ^ 30) TILE_OPEN] 1 1073741824).2.1 = 2 ∧
    (resizeMap [List.replicate (2 ^ 30) TILE_OPEN] 1 1073741824).2.2 = 2147483648 := by
  refine ⟨?_, ?_, rfl, rfl⟩
  · simp [createMap]
  · unfold resizeMapGuard
    right; right
    rw [INT32_MAX]
    norm_num

/-- C4 (amended): a load from an unopenable source fails with every
caller-visible output untouched and no map allocated; a load stopped by
the overflow guard allocates no map, but the row count, the column count
and the player coordinates have already been overwritten with the values
read from the source before the guard runs. -/
theorem C4_load_failure_behaviour :
    (∀ (R0 C0 : Int) (p0 : Player), loadLevel none R0 C0 p0 = (none, R0, C0, p0)) ∧
    (∀ (d : LevelData) (R0 C0 : Int) (p0 : Player),
      loadLevelOverflowGuard d.rows d.cols →
      loadLevel (some d) R0 C0 p0 =
        (none, d.rows, d.cols,
          { row := d.prow, col := d.pcol, treasure := p0.treasure })) := by
  constructor
  · intro R0 C0 p0
    rfl
  · intro d R0 C0 p0 h
    simp only [loadLevel]
    rw [if_pos h]

/-- Witness for C4: an unopenable source leaves the outputs `5, 6, (1,2)`
unchanged; an overflowing `65536 × 65536` source fails while the outputs
have been overwritten. -/
theorem C4_witness :
    loadLevel none 5 6 ⟨1, 2, 3⟩ = (none, 5, 6, ⟨1, 2, 3⟩) ∧
    loadLevelOverflowGuard 65536 65536 ∧
    loadLevel (some ⟨65536, 65536, 7, 8, []⟩) 3 3 ⟨1, 2, 9⟩ =
      (none, 65536, 65536, ⟨7, 8, 9⟩) := by
  have hg : loadLevelOverflowGuard (65536 : Int) 65536 := by
    constructor
    · norm_num
    · rw [INT32_MAX]
      norm_num
  refine ⟨C4_load_failure_behaviour.1 5 6 ⟨1, 2, 3⟩, hg, ?_⟩
  exact C4_load_failure_behaviour.2 ⟨65536, 65536, 7, 8, []⟩ 3 3 ⟨1, 2, 9⟩ hg

/-- Counterexample to C4 as stated: the overflow-guard failure path
returns no map but has already modified the caller-visible row count,
column count and player position. -/
theorem C4_counterexample :
    (loadLevel (some ⟨65536, 65536, 7, 8, []⟩) 3 3 ⟨1, 2, 9⟩).1 = none ∧
    (loadLevel (some ⟨65536, 65536, 7, 8, []⟩) 3 3 ⟨1, 2, 9⟩).2.1 ≠ 3 ∧
    (loadLevel (some ⟨65536, 65536, 7, 8, []⟩) 3 3 ⟨1, 2, 9⟩).2.2.2.row ≠ 1 := by
  have hg : loadLevelOverflowGuard (65536 : Int) 65536 := by
    constructor
    · norm_num
    · rw [INT32_MAX]
      norm_num
  have h : loadLevel (some ⟨65536, 65536, 7, 8, []⟩) 3 3 ⟨1, 2, 9⟩ =
      (none, 65536, 65536, ⟨7, 8, 9⟩) := by
    simp only [loadLevel]
    rw [if_pos hg]
  rw [h]
  refine ⟨rfl, by decide, by decide⟩
